import Mathlib

/-!
Verification development for the mcp-example-client command pipeline.

We shallowly embed the command interpretation and execution pipeline of the
client: the command parser (`src/utils/commandParser.ts`), the parameter
validator (`validateParameters` / `validateCommand` in
`src/utils/exportImport.ts`), the command executor
(`src/utils/commandExecutor.ts`), the terminal command handler
(`src/components/Terminal/TerminalContainer.tsx`) and the application state
reducer (`appReducer` in the AppContext module).

Modelling conventions:
  * Strings are `List Char` (`Str`), so that list lemmas apply directly.
  * JavaScript values flowing through the pipeline (parsed JSON parameters,
    transport responses, protocol-step payloads) are modelled by the `Json`
    type below.  JSON numbers keep their source lexeme, which is exactly the
    information `JSON.parse`/`JSON.stringify` round-trips; their numeric
    value is recovered by `numToRat` (JavaScript float rounding at extreme
    precision is outside the embedding).
  * `JSON.parse` and `JSON.stringify` are platform builtins; they are
    modelled by `jsonParse` and `stringify`, which implement the JSON
    grammar (ECMA-404) directly.
  * `RegExp.prototype.test` on a schema-supplied pattern is a platform
    builtin over an arbitrary regex; it is passed as an oracle parameter
    `rt` to the validator.
  * Parameter bags are plain records: the JavaScript `in` operator is
    modelled as key membership (prototype-chain lookup is not modelled).
  * Wall-clock reads (`Date.now`), `uuidv4` and ISO timestamps are
    abstracted into an `Env` of opaque values supplied to the executor.
-/

abbrev Str := List Char

/-- JavaScript WhiteSpace ∪ LineTerminator, as used by `String.prototype.trim`
and by `\s` in regular expressions. -/
def isJsWs (c : Char) : Bool :=
  c.toNat == 32 || c.toNat == 9 || c.toNat == 10 || c.toNat == 13 ||
  c.toNat == 11 || c.toNat == 12 || c.toNat == 0xa0 || c.toNat == 0x1680 ||
  (0x2000 ≤ c.toNat && c.toNat ≤ 0x200a) ||
  c.toNat == 0x2028 || c.toNat == 0x2029 || c.toNat == 0x202f ||
  c.toNat == 0x205f || c.toNat == 0x3000 || c.toNat == 0xfeff

/-- JavaScript LineTerminator characters, the ones `.` in a regular
expression (without the `s` flag) does not match. -/
def isLineTerm (c : Char) : Bool :=
  c.toNat == 10 || c.toNat == 13 || c.toNat == 0x2028 || c.toNat == 0x2029

/-- `String.prototype.trim`. -/
def jsTrim (s : Str) : Str :=
  ((s.dropWhile isJsWs).reverse.dropWhile isJsWs).reverse

/-- Characters accepted by the `[a-zA-Z0-9._]` name character class of the
parser's regular expressions. -/
def isNameChar (c : Char) : Bool :=
  (97 ≤ c.toNat && c.toNat ≤ 122) || (65 ≤ c.toNat && c.toNat ≤ 90) ||
  (48 ≤ c.toNat && c.toNat ≤ 57) || c.toNat == 46 || c.toNat == 95

def isDigitCh (c : Char) : Bool := 48 ≤ c.toNat && c.toNat ≤ 57

/-- JSON insignificant whitespace (space, tab, line feed, carriage return);
note this is strictly smaller than the JavaScript `\s` class. -/
def isJsonWs (c : Char) : Bool :=
  c.toNat == 32 || c.toNat == 9 || c.toNat == 10 || c.toNat == 13

/-- Characters that can occur in a JSON number token; the lexer takes the
maximal run of these and then checks it against the number grammar. -/
def isNumChar (c : Char) : Bool :=
  isDigitCh c || c.toNat == 45 || c.toNat == 43 || c.toNat == 46 ||
  c.toNat == 101 || c.toNat == 69

mutual
/-- JavaScript/JSON values flowing through the pipeline. -/
inductive Json where
  | nul : Json
  | bool : Bool → Json
  | num : Str → Json
  | str : Str → Json
  | arr : JArr → Json
  | obj : JObj → Json

inductive JArr where
  | nil : JArr
  | cons : Json → JArr → JArr

inductive JObj where
  | nil : JObj
  | cons : Str → Json → JObj → JObj
end

namespace JObj

/-- Key membership, modelling the JavaScript `in` operator on a plain
record. -/
def hasKey (o : JObj) (k : Str) : Bool :=
  match o with
  | .nil => false
  | .cons k' _ tl => k' == k || hasKey tl k

/-- Property read `o[k]`.  Objects built by `JSON.parse` keep the last
binding for a duplicated key, so lookup prefers the last one. -/
def get (o : JObj) (k : Str) : Option Json :=
  match o with
  | .nil => none
  | .cons k' v tl => match get tl k with
    | some v' => some v'
    | none => if k' == k then some v else none

end JObj

/-- Field access `v.k` on a JavaScript value: only objects have fields in
the fragment the pipeline exercises. -/
def Json.field (v : Json) (k : Str) : Option Json :=
  match v with
  | .obj o => o.get k
  | _ => none

/-- JSON number grammar, exponent part: `([eE] [+-]? digit+)?` followed by
end of token. -/
def numExpOk (s : Str) : Bool :=
  match s with
  | [] => true
  | e :: t =>
    if e == 'e' || e == 'E' then
      let t1 := match t with
        | '+' :: u => u
        | '-' :: u => u
        | _ => t
      !t1.isEmpty && t1.all isDigitCh
    else false

/-- JSON number grammar, fraction part: `(. digit+)?` then exponent. -/
def numFracOk (s : Str) : Bool :=
  match s with
  | '.' :: t => !(t.takeWhile isDigitCh).isEmpty && numExpOk (t.dropWhile isDigitCh)
  | _ => numExpOk s

/-- Full JSON number grammar `-? (0 | [1-9] digit*) frac? exp?`. -/
def numWF (s : Str) : Bool :=
  let s1 := match s with
    | '-' :: t => t
    | _ => s
  match s1 with
  | [] => false
  | '0' :: t => numFracOk t
  | c :: t => isDigitCh c && numFracOk (t.dropWhile isDigitCh)

/-- Decimal digits read as a natural number. -/
def digitsToNat (ds : Str) : Nat :=
  ds.foldl (fun a c => a * 10 + (c.toNat - 48)) 0

/-- Numeric value denoted by a JSON number lexeme, as an exact rational
(the embedding's stand-in for the JavaScript float value). -/
def numToRat (s : Str) : ℚ :=
  let (sgn, s1) : ℚ × Str := match s with
    | '-' :: t => (-1, t)
    | _ => (1, s)
  let intDs := s1.takeWhile isDigitCh
  let rest := s1.dropWhile isDigitCh
  let (fracDs, rest2) : Str × Str := match rest with
    | '.' :: t => (t.takeWhile isDigitCh, t.dropWhile isDigitCh)
    | _ => ([], rest)
  let expPart : Int := match rest2 with
    | 'e' :: t | 'E' :: t =>
      match t with
      | '-' :: u => -(digitsToNat u : Int)
      | '+' :: u => (digitsToNat u : Int)
      | u => (digitsToNat u : Int)
    | _ => 0
  let mantissa : ℚ :=
    (digitsToNat intDs : ℚ) + (digitsToNat fracDs : ℚ) / ((10 : ℚ) ^ fracDs.length)
  sgn * mantissa * ((10 : ℚ) ^ expPart)

/-- `Number.isInteger` on the value of a number lexeme. -/
def numIsInt (s : Str) : Bool := (numToRat s).den == 1

/-- JavaScript truthiness of a value. -/
def jsTruthyJson (v : Json) : Bool :=
  match v with
  | .nul => false
  | .bool b => b
  | .num lex => decide (numToRat lex ≠ 0)
  | .str s => !s.isEmpty
  | .arr _ => true
  | .obj _ => true

/-- Truthiness of a possibly-absent (`undefined`) value. -/
def jsTruthy (v : Option Json) : Bool :=
  match v with
  | none => false
  | some v => jsTruthyJson v

/-- Truthiness of a possibly-absent string field. -/
def jsTruthyStr (s : Option Str) : Bool :=
  match s with
  | none => false
  | some s => !s.isEmpty

mutual
/-- String interpolation `${x}` of a JavaScript value. -/
def jsToString (v : Json) : Str :=
  match v with
  | .nul => "null".data
  | .bool true => "true".data
  | .bool false => "false".data
  | .num lex => lex
  | .str s => s
  | .arr xs => jsToStringArr xs
  | .obj _ => "[object Object]".data

/-- `Array.prototype.toString`: elements joined by commas, with `null`
elements rendered as the empty string. -/
def jsToStringArr (xs : JArr) : Str :=
  match xs with
  | .nil => []
  | .cons v .nil => match v with
    | .nul => []
    | v => jsToString v
  | .cons v tl =>
    (match v with
     | .nul => []
     | v => jsToString v) ++ ',' :: jsToStringArr tl
end

/-- String interpolation of a possibly-`undefined` value. -/
def jsDisplay (v : Option Json) : Str :=
  match v with
  | none => "undefined".data
  | some v => jsToString v

/-- String interpolation of a possibly-`undefined` string. -/
def jsDisplayStr (s : Option Str) : Str :=
  match s with
  | none => "undefined".data
  | some s => s

/-- `s || ''` on an optional string. -/
def jsOrEmpty (s : Option Str) : Str :=
  match s with
  | none => []
  | some s => s

/-- Value of one hexadecimal digit character. -/
def hexVal (c : Char) : Option Nat :=
  if 48 ≤ c.toNat && c.toNat ≤ 57 then some (c.toNat - 48)
  else if 97 ≤ c.toNat && c.toNat ≤ 102 then some (c.toNat - 87)
  else if 65 ≤ c.toNat && c.toNat ≤ 70 then some (c.toNat - 55)
  else none

/-- The single-character JSON string escapes. -/
def escTable (c : Char) : Option Char :=
  if c == 'n' then some '\n'
  else if c == '"' then some '"'
  else if c == 't' then some '\t'
  else if c == '\\' then some '\\'
  else if c == 'r' then some '\r'
  else if c == '/' then some '/'
  else if c == 'b' then some (Char.ofNat 8)
  else if c == 'f' then some (Char.ofNat 12)
  else none

/-- Parse the body of a JSON string (the opening quote already consumed):
returns the unescaped content and the input after the closing quote.
Unescaped control characters are rejected, as in `JSON.parse`. -/
def parseStrBody : Str → Option (Str × Str)
  | [] => none
  | c :: rest =>
    if c == '"' then some ([], rest)
    else if c == '\\' then
      match rest with
      | 'u' :: a :: b :: c2 :: d :: rest2 =>
        match hexVal a, hexVal b, hexVal c2, hexVal d with
        | some ha, some hb, some hc, some hd =>
          match parseStrBody rest2 with
          | some (s, r) => some (Char.ofNat (((ha * 16 + hb) * 16 + hc) * 16 + hd) :: s, r)
          | none => none
        | _, _, _, _ => none
      | e :: rest2 =>
        match escTable e with
        | some c3 =>
          match parseStrBody rest2 with
          | some (s, r) => some (c3 :: s, r)
          | none => none
        | none => none
      | [] => none
    else if c.toNat < 0x20 then none
    else
      match parseStrBody rest with
      | some (s, r) => some (c :: s, r)
      | none => none

mutual
/-- Parse one JSON value (fuel-indexed recursive descent): returns the value
and the unconsumed remainder.  `jsonParse` supplies ample fuel. -/
def parseVal : Nat → Str → Option (Json × Str)
  | 0, _ => none
  | fuel + 1, l =>
    match l.dropWhile isJsonWs with
    | [] => none
    | c :: rest =>
      if c == '\x7b' then
        match rest.dropWhile isJsonWs with
        | '\x7d' :: r => some (Json.obj .nil, r)
        | _ =>
          match parseMems fuel rest with
          | some (ms, r) => some (Json.obj ms, r)
          | none => none
      else if c == '[' then
        match rest.dropWhile isJsonWs with
        | ']' :: r => some (Json.arr .nil, r)
        | _ =>
          match parseElems fuel rest with
          | some (xs, r) => some (Json.arr xs, r)
          | none => none
      else if c == '"' then
        match parseStrBody rest with
        | some (s, r) => some (Json.str s, r)
        | none => none
      else if c == 't' then
        match rest with
        | 'r' :: 'u' :: 'e' :: r => some (Json.bool true, r)
        | _ => none
      else if c == 'f' then
        match rest with
        | 'a' :: 'l' :: 's' :: 'e' :: r => some (Json.bool false, r)
        | _ => none
      else if c == 'n' then
        match rest with
        | 'u' :: 'l' :: 'l' :: r => some (Json.nul, r)
        | _ => none
      else if isNumChar c then
        let lex := (c :: rest).takeWhile isNumChar
        if numWF lex then some (Json.num lex, (c :: rest).dropWhile isNumChar)
        else none
      else none

/-- Parse one or more comma-separated array elements up to the closing
bracket. -/
def parseElems : Nat → Str → Option (JArr × Str)
  | 0, _ => none
  | fuel + 1, l =>
    match parseVal fuel l with
    | some (v, r) =>
      match r.dropWhile isJsonWs with
      | ',' :: r2 =>
        match parseElems fuel r2 with
        | some (tl, r3) => some (.cons v tl, r3)
        | none => none
      | ']' :: r2 => some (.cons v .nil, r2)
      | _ => none
    | none => none

/-- Parse one or more comma-separated object members up to the closing
brace. -/
def parseMems : Nat → Str → Option (JObj × Str)
  | 0, _ => none
  | fuel + 1, l =>
    match l.dropWhile isJsonWs with
    | '"' :: r =>
      match parseStrBody r with
      | some (k, r1) =>
        match r1.dropWhile isJsonWs with
        | ':' :: r2 =>
          match parseVal fuel r2 with
          | some (v, r3) =>
            match r3.dropWhile isJsonWs with
            | ',' :: r4 =>
              match parseMems fuel r4 with
              | some (tl, r5) => some (.cons k v tl, r5)
              | none => none
            | '\x7d' :: r4 => some (.cons k v JObj.nil, r4)
            | _ => none
          | none => none
        | _ => none
      | none => none
    | _ => none
end

/-- The model of `JSON.parse`: parse a complete JSON document, allowing
only trailing whitespace.  The fuel `2 * length + 2` dominates the two
fuel decrements any single consumed character can cause. -/
def jsonParse (l : Str) : Option Json :=
  match parseVal (2 * l.length + 2) l with
  | some (v, r) => if (r.dropWhile isJsonWs).isEmpty then some v else none
  | none => none

/-- Lower-case hexadecimal digit character for a value below 16. -/
def hexDigitCh (n : Nat) : Char :=
  if n < 10 then Char.ofNat (48 + n) else Char.ofNat (87 + n)

/-- `JSON.stringify` escaping of one string character. -/
def escChar (c : Char) : Str :=
  if c == '"' then ['\\', '"']
  else if c == '\\' then ['\\', '\\']
  else if c == Char.ofNat 8 then ['\\', 'b']
  else if c == Char.ofNat 12 then ['\\', 'f']
  else if c == '\n' then ['\\', 'n']
  else if c == '\r' then ['\\', 'r']
  else if c == '\t' then ['\\', 't']
  else if c.toNat < 0x20 then
    ['\\', 'u', '0', '0', hexDigitCh (c.toNat / 16), hexDigitCh (c.toNat % 16)]
  else [c]

def escapeStr (s : Str) : Str := (s.map escChar).flatten

mutual
/-- The model of `JSON.stringify` (no spacing argument). -/
def stringify : Json → Str
  | .nul => "null".data
  | .bool true => "true".data
  | .bool false => "false".data
  | .num lex => lex
  | .str s => '"' :: (escapeStr s ++ ['"'])
  | .arr xs => '[' :: (stringifyArr xs ++ [']'])
  | .obj ms => '\x7b' :: (stringifyObj ms ++ ['\x7d'])

def stringifyArr : JArr → Str
  | .nil => []
  | .cons v .nil => stringify v
  | .cons v tl => stringify v ++ ',' :: stringifyArr tl

def stringifyObj : JObj → Str
  | .nil => []
  | .cons k v .nil => '"' :: (escapeStr k ++ '"' :: ':' :: stringify v)
  | .cons k v tl =>
    ('"' :: (escapeStr k ++ '"' :: ':' :: stringify v)) ++ ',' :: stringifyObj tl
end

mutual
/-- Fuel needed by `parseVal` to read back a printed value. -/
def Json.fsize : Json → Nat
  | .arr xs => 1 + JArr.fsize xs
  | .obj ms => 1 + JObj.fsize ms
  | _ => 1

def JArr.fsize : JArr → Nat
  | .nil => 1
  | .cons v tl => 1 + Json.fsize v + JArr.fsize tl

def JObj.fsize : JObj → Nat
  | .nil => 1
  | .cons _ v tl => 1 + Json.fsize v + JObj.fsize tl
end

/-- Strings free of the two line-terminator code points `JSON.stringify`
leaves unescaped (U+2028, U+2029). -/
def strWF (s : Str) : Bool :=
  s.all (fun c => !(c.toNat == 0x2028 || c.toNat == 0x2029))

mutual
/-- Well-formed embedded values: number lexemes satisfy the JSON number
grammar and strings avoid raw U+2028/U+2029.  Every value produced by
`JSON.parse` satisfies this; it is the domain on which `stringify` is a
section of `jsonParse`. -/
def Json.wf : Json → Bool
  | .nul => true
  | .bool _ => true
  | .num lex => numWF lex
  | .str s => strWF s
  | .arr xs => JArr.wf xs
  | .obj ms => JObj.wf ms

def JArr.wf : JArr → Bool
  | .nil => true
  | .cons v tl => Json.wf v && JArr.wf tl

def JObj.wf : JObj → Bool
  | .nil => true
  | .cons k v tl => strWF k && Json.wf v && JObj.wf tl
end

def indentStr (n : Nat) : Str := List.replicate n ' '

mutual
/-- The model of `JSON.stringify(v, null, 2)` used for terminal display. -/
def sPretty (ind : Nat) : Json → Str
  | .arr .nil => ['[', ']']
  | .arr (.cons v tl) =>
    '[' :: '\n' :: (sPrettyArr (ind + 2) (.cons v tl) ++ '\n' :: (indentStr ind ++ [']']))
  | .obj .nil => ['\x7b', '\x7d']
  | .obj (.cons k v tl) =>
    '\x7b' :: '\n' :: (sPrettyObj (ind + 2) (.cons k v tl) ++ '\n' :: (indentStr ind ++ ['\x7d']))
  | v => stringify v

def sPrettyArr (ind : Nat) : JArr → Str
  | .nil => []
  | .cons v .nil => indentStr ind ++ sPretty ind v
  | .cons v tl => (indentStr ind ++ sPretty ind v) ++ ',' :: '\n' :: sPrettyArr ind tl

def sPrettyObj (ind : Nat) : JObj → Str
  | .nil => []
  | .cons k v .nil =>
    indentStr ind ++ '"' :: (escapeStr k ++ '"' :: ':' :: ' ' :: sPretty ind v)
  | .cons k v tl =>
    (indentStr ind ++ '"' :: (escapeStr k ++ '"' :: ':' :: ' ' :: sPretty ind v)) ++
      ',' :: '\n' :: sPrettyObj ind tl
end

/-! ## The command parser (`parseCommand` in `src/utils/commandParser.ts`) -/

/-- Case-insensitive literal keyword match (the `/i` flag of the parser's
regular expressions): consumes `kw` (given lower case) from the front. -/
def stripCI : Str → Str → Option Str
  | [], l => some l
  | _ :: _, [] => none
  | k :: kt, c :: ct => if c.toLower == k then stripCI kt ct else none

/-- `\s+`: require at least one JavaScript whitespace character, then skip
the maximal run. -/
def wsRun1 (l : Str) : Option Str :=
  match l with
  | [] => none
  | c :: _ => if isJsWs c then some (l.dropWhile isJsWs) else none

/-- Deterministic equivalent of matching `^connect\s+([^\s]+)\s+([^\s]+)$`
against a trimmed input: exactly two whitespace-separated tokens after the
keyword. -/
def connectMatch (l : Str) : Option (Str × Str) :=
  match stripCI "connect".data l with
  | none => none
  | some r0 =>
    match wsRun1 r0 with
    | none => none
    | some r1 =>
      let t1 := r1.takeWhile (fun c => !isJsWs c)
      let r2 := r1.dropWhile (fun c => !isJsWs c)
      if t1.isEmpty then none
      else
        match wsRun1 r2 with
        | none => none
        | some r3 =>
          let t2 := r3.takeWhile (fun c => !isJsWs c)
          let r4 := r3.dropWhile (fun c => !isJsWs c)
          if t2.isEmpty then none
          else if r4.isEmpty then some (t1, t2) else none

/-- Deterministic equivalent of `^<kw>\s+([a-zA-Z0-9._]+)\s+(.+)$` on a
trimmed input: keyword, a name, then a non-empty remainder free of line
terminators (which `.` cannot match and, not being final, `$` cannot
absorb). -/
def kwNameRest (kw : Str) (l : Str) : Option (Str × Str) :=
  match stripCI kw l with
  | none => none
  | some r0 =>
    match wsRun1 r0 with
    | none => none
    | some r1 =>
      let nm := r1.takeWhile isNameChar
      let r2 := r1.dropWhile isNameChar
      if nm.isEmpty then none
      else
        match wsRun1 r2 with
        | none => none
        | some rest =>
          if rest.isEmpty then none
          else if rest.any isLineTerm then none
          else some (nm, rest)

/-- Deterministic equivalent of `^function\s+get\s+([a-zA-Z0-9._]+)$`. -/
def functionGetMatch (l : Str) : Option Str :=
  match stripCI "function".data l with
  | none => none
  | some r0 =>
    match wsRun1 r0 with
    | none => none
    | some r1 =>
      match stripCI "get".data r1 with
      | none => none
      | some r2 =>
        match wsRun1 r2 with
        | none => none
        | some r3 => if !r3.isEmpty && r3.all isNameChar then some r3 else none

/-- Deterministic equivalent of `^execute\s+"(.+)"$` on a trimmed input:
the closing quote is anchored at the end, so the capture runs from the
first quote to the final character. -/
def executeMatch (l : Str) : Option Str :=
  match stripCI "execute".data l with
  | none => none
  | some r0 =>
    match wsRun1 r0 with
    | none => none
    | some r1 =>
      match r1 with
      | '"' :: body =>
        match body.reverse with
        | '"' :: revText =>
          let text := revText.reverse
          if text.isEmpty then none
          else if text.any isLineTerm then none
          else some text
        | _ => none
      | _ => none

/-- The `CommandType` union of the terminal interface. -/
inductive CommandType where
  | functions_list
  | tools_list
  | function_get
  | call_function
  | call_tool
  | execute
  | stream_function
  | stream_tool
  | help
  | clear
  | history
  | connect
deriving DecidableEq

/-- The string literal each `CommandType` tag denotes in the source. -/
def CommandType.toStr : CommandType → Str
  | .functions_list => "functions_list".data
  | .tools_list => "tools_list".data
  | .function_get => "function_get".data
  | .call_function => "call_function".data
  | .call_tool => "call_tool".data
  | .execute => "execute".data
  | .stream_function => "stream_function".data
  | .stream_tool => "stream_tool".data
  | .help => "help".data
  | .clear => "clear".data
  | .history => "history".data
  | .connect => "connect".data

/-- `ParsedCommand`: a type tag with optional payload fields, a `valid`
flag and an optional error message. -/
structure ParsedCommand where
  type : CommandType
  functionName : Option Str := none
  parameters : Option Json := none
  text : Option Str := none
  valid : Bool
  error : Option Str := none

/-- The fixed message for a malformed JSON parameter blob. -/
def jsonErrMsg : Str :=
  "Invalid JSON parameters. Parameters must be a valid JSON object.".data

/-- Steps 8-10 of the parser's ordered match sequence: `stream`, then
`execute "<text>"`, then the unrecognized-command fallback. -/
def parseStreamRest (command : Str) : ParsedCommand :=
  match kwNameRest "stream".data command with
  | some (nm, blob) =>
    match jsonParse blob with
    | some v => ⟨.stream_function, some nm, some v, none, true, none⟩
    | none => ⟨.stream_function, some nm, none, none, false, some jsonErrMsg⟩
  | none =>
    match executeMatch command with
    | some text => ⟨.execute, none, none, some text, true, none⟩
    | none =>
      ⟨.help, none, none, none, false,
        some ("Unrecognized command: \"".data ++ command ++
          "\". Type \"help\" for a list of commands.".data)⟩

/-- Step 7: `tool <name> <json>`. -/
def parseToolRest (command : Str) : ParsedCommand :=
  match kwNameRest "tool".data command with
  | some (nm, blob) =>
    match jsonParse blob with
    | some v => ⟨.call_tool, some nm, some v, none, true, none⟩
    | none => ⟨.call_tool, some nm, none, none, false, some jsonErrMsg⟩
  | none => parseStreamRest command

/-- Step 6: `call <name> <json>`. -/
def parseCallRest (command : Str) : ParsedCommand :=
  match kwNameRest "call".data command with
  | some (nm, blob) =>
    match jsonParse blob with
    | some v => ⟨.call_function, some nm, some v, none, true, none⟩
    | none => ⟨.call_function, some nm, none, none, false, some jsonErrMsg⟩
  | none => parseToolRest command

/-- Step 5: `function get <name>`. -/
def parseFnGetRest (command : Str) : ParsedCommand :=
  match functionGetMatch command with
  | some nm => ⟨.function_get, some nm, none, none, true, none⟩
  | none => parseCallRest command

/-- Steps 3-4: the list-command literals. -/
def parseListsRest (command : Str) : ParsedCommand :=
  if command = "functions list".data || command = "list functions".data then
    ⟨.functions_list, none, none, none, true, none⟩
  else if command = "tools list".data || command = "list tools".data then
    ⟨.tools_list, none, none, none, true, none⟩
  else parseFnGetRest command

/-- Step 2: `connect <url> <apiKey>`. -/
def parseConnectRest (command : Str) : ParsedCommand :=
  match connectMatch command with
  | some (url, key) =>
    ⟨.connect, none,
      some (Json.obj (.cons "url".data (.str url) (.cons "apiKey".data (.str key) .nil))),
      none, true, none⟩
  | none => parseListsRest command

/-- `parseCommand`: trim, then attempt the fixed, ordered sequence of
pattern matches (split here into one definition per source block, applied
in source order); first match wins; no match falls back to an invalid
`help`. -/
def parseCommand (commandString : Str) : ParsedCommand :=
  let command := jsTrim commandString
  if command.isEmpty then
    ⟨.help, none, none, none, false, some "Command cannot be empty".data⟩
  else if command = "help".data then ⟨.help, none, none, none, true, none⟩
  else if command = "clear".data then ⟨.clear, none, none, none, true, none⟩
  else if command = "history".data then ⟨.history, none, none, none, true, none⟩
  else parseConnectRest command

/-- The help text returned by `getCommandHelp` in `commandParser.ts` (the
module the executor imports it from), after its `.trim()`. -/
def getCommandHelp : Str :=
  String.data <|
    "Available commands:" ++ "\n" ++
    "" ++ "\n" ++
    "connect <url> <apiKey>            - Connect to an MCP server" ++ "\n" ++
    "list functions                     - List all available functions" ++ "\n" ++
    "list tools                         - List all available tools" ++ "\n" ++
    "call <n> <params>                  - Call a function with parameters" ++ "\n" ++
    "tool <n> <params>                  - Call a tool with parameters" ++ "\n" ++
    "stream <n> <params>                - Stream results from a function" ++ "\n" ++
    "" ++ "\n" ++
    "Special commands:" ++ "\n" ++
    "help                               - Show this help message" ++ "\n" ++
    "clear                              - Clear the terminal" ++ "\n" ++
    "history                            - Show command history" ++ "\n" ++
    "" ++ "\n" ++
    "Examples:" ++ "\n" ++
    "connect http://localhost:8000 api-key-1234" ++ "\n" ++
    "list functions" ++ "\n" ++
    "call calculator.add \x7b\"a\": 5, \"b\": 3\x7d" ++ "\n" ++
    "tool text.uppercase \x7b\"text\": \"hello world\"\x7d"

/-! ## Schema validation (`validateParameters`, `validateCommand` in
`src/utils/exportImport.ts`) -/

inductive JType where
  | string
  | number
  | integer
  | boolean
  | object
  | array
  | nullT
deriving DecidableEq

/-- `type` field of a schema: one type name or an array of them. -/
inductive JTypeSpec where
  | one (t : JType)
  | many (ts : List JType)

/-- The fields of `JSONSchemaProperty` that `validateParameters` reads
(the remaining declared fields are never consulted by it). -/
inductive Schema where
  | mk (type : Option JTypeSpec) (required : Option (List Str))
       (properties : Option (List (Str × Schema)))
       (minLength maxLength : Option ℚ) (pattern : Option Str)
       (minimum maximum : Option ℚ) (minItems maxItems : Option ℚ)

def Schema.type : Schema → Option JTypeSpec
  | .mk t _ _ _ _ _ _ _ _ _ => t

def Schema.required : Schema → Option (List Str)
  | .mk _ r _ _ _ _ _ _ _ _ => r

def Schema.properties : Schema → Option (List (Str × Schema))
  | .mk _ _ p _ _ _ _ _ _ _ => p

def Schema.minLength : Schema → Option ℚ
  | .mk _ _ _ a _ _ _ _ _ _ => a

def Schema.maxLength : Schema → Option ℚ
  | .mk _ _ _ _ b _ _ _ _ _ => b

def Schema.pattern : Schema → Option Str
  | .mk _ _ _ _ _ p _ _ _ _ => p

def Schema.minimum : Schema → Option ℚ
  | .mk _ _ _ _ _ _ a _ _ _ => a

def Schema.maximum : Schema → Option ℚ
  | .mk _ _ _ _ _ _ _ b _ _ => b

def Schema.minItems : Schema → Option ℚ
  | .mk _ _ _ _ _ _ _ _ a _ => a

def Schema.maxItems : Schema → Option ℚ
  | .mk _ _ _ _ _ _ _ _ _ b => b

def JType.toStr : JType → Str
  | .string => "string".data
  | .number => "number".data
  | .integer => "integer".data
  | .boolean => "boolean".data
  | .object => "object".data
  | .array => "array".data
  | .nullT => "null".data

def JTypeSpec.list : JTypeSpec → List JType
  | .one t => [t]
  | .many ts => ts

/-- One iteration of the type `switch`: does `value` satisfy type `t`? -/
def typeCheck (value : Json) : JType → Bool
  | .string => match value with | .str _ => true | _ => false
  | .number => match value with | .num _ => true | _ => false
  | .integer => match value with | .num lex => numIsInt lex | _ => false
  | .boolean => match value with | .bool _ => true | _ => false
  | .object => match value with | .obj _ => true | _ => false
  | .array => match value with | .arr _ => true | _ => false
  | .nullT => match value with | .nul => true | _ => false

def joinWith (sep : Str) : List Str → Str
  | [] => []
  | [s] => s
  | s :: rest => s ++ sep ++ joinWith sep rest

def natToStr (n : Nat) : Str := Nat.toDigits 10 n

def intToStr (i : Int) : Str :=
  if i < 0 then '-' :: natToStr i.natAbs else natToStr i.natAbs

/-- Rendering of a schema-supplied number inside an error message
(exact for integers; non-integer rationals are shown as fractions, an
approximation of JavaScript float printing that no claim depends on). -/
def ratToStr (q : ℚ) : Str :=
  if q.den = 1 then intToStr q.num else intToStr q.num ++ '/' :: natToStr q.den

def JArr.length : JArr → Nat
  | .nil => 0
  | .cons _ tl => 1 + JArr.length tl

/-- The message pushed for a required property missing from the values. -/
def missingMsg (name : Str) : Str := "Missing required parameter: ".data ++ name

/-- The first loop of `validateParameters`: one missing-parameter message,
in order, for each required name not present in the value bag. -/
def requiredErrors (parameters : JObj) (req : List Str) : List Str :=
  req.filterMap fun r =>
    if parameters.hasKey r then none else some (missingMsg r)

/-- Message builders for the per-property checks (source literal prefixes). -/
def invalidTypeMsg (propName : Str) (ts : List JType) : Str :=
  "Invalid type for parameter ".data ++ propName ++ ". Expected ".data ++
    joinWith " or ".data (ts.map JType.toStr) ++ ".".data

def tooShortMsg (propName : Str) (m : ℚ) : Str :=
  "Parameter ".data ++ propName ++ " is too short. Minimum length: ".data ++
    ratToStr m ++ ".".data

def tooLongMsg (propName : Str) (m : ℚ) : Str :=
  "Parameter ".data ++ propName ++ " is too long. Maximum length: ".data ++
    ratToStr m ++ ".".data

def patternMsg (propName : Str) : Str :=
  "Parameter ".data ++ propName ++ " does not match required pattern.".data

def tooSmallMsg (propName : Str) (m : ℚ) : Str :=
  "Parameter ".data ++ propName ++ " is too small. Minimum value: ".data ++
    ratToStr m ++ ".".data

def tooLargeMsg (propName : Str) (m : ℚ) : Str :=
  "Parameter ".data ++ propName ++ " is too large. Maximum value: ".data ++
    ratToStr m ++ ".".data

def tooFewMsg (propName : Str) (m : ℚ) : Str :=
  "Array ".data ++ propName ++ " has too few items. Minimum: ".data ++
    ratToStr m ++ ".".data

def tooManyMsg (propName : Str) (m : ℚ) : Str :=
  "Array ".data ++ propName ++ " has too many items. Maximum: ".data ++
    ratToStr m ++ ".".data

/-- The checks of one `properties` entry (type, then string, number and
array constraint blocks, in source order); empty if the property is not
present in the value bag. -/
def propErrors1 (rt : Str → Str → Bool) (parameters : JObj) (propName : Str)
    (ps : Schema) : List Str :=
  match parameters.get propName with
  | none => []
  | some value =>
    let typeErrs : List Str :=
      match ps.type with
      | none => []
      | some tspec =>
        if tspec.list.any (typeCheck value) then []
        else [invalidTypeMsg propName tspec.list]
    let strErrs : List Str :=
      match ps.type, value with
      | some (.one .string), .str s =>
        (match ps.minLength with
         | some m => if (s.length : ℚ) < m then [tooShortMsg propName m] else []
         | none => []) ++
        (match ps.maxLength with
         | some m => if (s.length : ℚ) > m then [tooLongMsg propName m] else []
         | none => []) ++
        (match ps.pattern with
         | some p =>
           if p.isEmpty then []
           else if rt p s then []
           else [patternMsg propName]
         | none => [])
      | _, _ => []
    let numErrs : List Str :=
      match ps.type, value with
      | some (.one .number), .num lex | some (.one .integer), .num lex =>
        (match ps.minimum with
         | some m => if numToRat lex < m then [tooSmallMsg propName m] else []
         | none => []) ++
        (match ps.maximum with
         | some m => if numToRat lex > m then [tooLargeMsg propName m] else []
         | none => [])
      | _, _ => []
    let arrErrs : List Str :=
      match ps.type, value with
      | some (.one .array), .arr xs =>
        (match ps.minItems with
         | some m => if (JArr.length xs : ℚ) < m then [tooFewMsg propName m] else []
         | none => []) ++
        (match ps.maxItems with
         | some m => if (JArr.length xs : ℚ) > m then [tooManyMsg propName m] else []
         | none => [])
      | _, _ => []
    typeErrs ++ strErrs ++ numErrs ++ arrErrs

structure ValidationResult where
  valid : Bool
  errors : Option (List Str)

/-- `validateParameters(parameters, schema)`: collect all violations —
missing required names first, then the per-property checks — and succeed
exactly when none were collected. -/
def vpErrors (rt : Str → Str → Bool) (parameters : JObj) (schema : Schema) :
    List Str :=
  requiredErrors parameters (schema.required.getD []) ++
    (schema.properties.getD []).flatMap fun e => propErrors1 rt parameters e.1 e.2

def validateParameters (rt : Str → Str → Bool) (parameters : JObj)
    (schema : Schema) : ValidationResult :=
  let errors := vpErrors rt parameters schema
  ⟨errors.isEmpty, if errors.isEmpty then none else some errors⟩

structure MCPFunctionDefinition where
  name : Str
  description : Str
  parameters : Schema

def JArr.get : JArr → Nat → Option Json
  | .nil, _ => none
  | .cons v _, 0 => some v
  | .cons _ tl, n + 1 => JArr.get tl n

/-- An array viewed as a value bag, the way the `in` operator and indexing
see it: index keys plus `length` (inherited array methods not modelled). -/
def arrAsObj (xs : JArr) : JObj :=
  let rec go (i : Nat) : JArr → JObj
    | .nil => .nil
    | .cons v tl => .cons (natToStr i) v (go (i + 1) tl)
  JObj.cons "length".data (Json.num (natToStr xs.length)) (go 0 xs)

/-- A parameters value usable as the record `validateParameters` iterates
over; primitives make the JavaScript `in` operator throw. -/
def asParamBag : Json → Option JObj
  | .obj o => some o
  | .arr xs => some (arrAsObj xs)
  | _ => none

/-- Would `validateParameters` evaluate `in` at least once (and hence throw
a `TypeError` on a primitive bag)? -/
def inOpEvaluated (s : Schema) : Bool :=
  !(s.required.getD []).isEmpty || !(s.properties.getD []).isEmpty

/-- `validateCommand(command, functionDef)`: commands without parameters
pass through; otherwise all validator errors are joined with `"; "` into
one `valid=false` copy.  The `Except` layer records the `TypeError` a
truthy primitive parameters value would raise (outside the executor's
`try`). -/
def validateCommand (rt : Str → Str → Bool) (command : ParsedCommand)
    (functionDef : MCPFunctionDefinition) : Except Str ParsedCommand :=
  if !jsTruthy command.parameters then .ok command
  else
    match asParamBag ((command.parameters).getD Json.nul) with
    | some bag =>
      let validation := validateParameters rt bag functionDef.parameters
      if !validation.valid then
        let msg := "Parameter validation failed: ".data ++
          joinWith "; ".data (validation.errors.getD [])
        .ok { command with valid := false, error := some msg }
      else .ok command
    | none =>
      if inOpEvaluated functionDef.parameters then
        .error "TypeError: cannot use the in operator on a primitive".data
      else .ok command

/-! ## The command executor (`executeCommand` in
`src/utils/commandExecutor.ts`) -/

inductive StepType where
  | request
  | response
  | websocket
  | error
deriving DecidableEq

structure ProtocolStep where
  id : Str
  type : StepType
  method : Option Str := none
  endpoint : Str
  data : Json := .nul
  timestamp : Str
  duration : Option Nat := none

structure CommandHistoryItem where
  id : Str
  timestamp : Str
  command : Str
  parsedCommand : ParsedCommand
  response : Json := .nul
  duration : Option Nat := none
  favorite : Bool

/-- One call into the transport collaborator (`apiClient`), recorded in
order of occurrence. -/
inductive TCall where
  | testConnection
  | listFunctions
  | getFunction (name : Str)
  | callFunction (name : Str) (parameters : Json)
  | callTool (name : Str) (parameters : Json)
  | executeText (text : Str)
  | updateConfig (url : Str) (apiKey : Str)

/-- Behaviour oracle for the transport collaborator: each operation either
resolves to a JSON payload or rejects with an `Error` whose message is the
given string.  `testConnection` never rejects (`client.ts` catches
internally and resolves `false`). -/
structure Transport where
  testConnection : Bool
  listFunctions : Except Str Json
  getFunction : Str → Except Str Json
  callFunction : Str → Json → Except Str Json
  callTool : Str → Json → Except Str Json
  executeText : Str → Except Str Json

/-- Abstracted effectful reads: generated ids, ISO timestamps and the
measured wall-clock delta. -/
structure Env where
  newId : Str
  stepId : Str
  now : Str
  elapsed : Nat

/-- `formatParams`: stringify a truthy parameters value; anything else
renders as the empty object literal. -/
def formatParams (params : Option Json) : Str :=
  if jsTruthy params then stringify ((params).getD Json.nul) else "\x7b\x7d".data

/-- `formatCommandString`: serialize a parsed command back to its canonical
command-line form (the executor's inverse of the parser). -/
def formatCommandString (command : ParsedCommand) : Str :=
  match command.type with
  | .help => "help".data
  | .clear => "clear".data
  | .history => "history".data
  | .functions_list => "functions list".data
  | .tools_list => "tools list".data
  | .connect =>
    if jsTruthy command.parameters then
      "connect ".data ++ jsDisplay (((command.parameters).getD .nul).field "url".data) ++
        ' ' :: jsDisplay (((command.parameters).getD .nul).field "apiKey".data)
    else "connect".data
  | .function_get => "function get ".data ++ jsOrEmpty command.functionName
  | .call_function =>
    "call ".data ++ jsOrEmpty command.functionName ++ ' ' :: formatParams command.parameters
  | .call_tool =>
    "tool ".data ++ jsOrEmpty command.functionName ++ ' ' :: formatParams command.parameters
  | .stream_function =>
    "stream ".data ++ jsOrEmpty command.functionName ++ ' ' :: formatParams command.parameters
  | .execute => "execute \"".data ++ jsOrEmpty command.text ++ ['"']
  | .stream_tool => "unknown command".data

/-- `createHistoryItem`. -/
def createHistoryItem (env : Env) (command : ParsedCommand) (result : Json)
    (duration : Option Nat) : CommandHistoryItem :=
  ⟨env.newId, env.now, formatCommandString command, command, result, duration, false⟩

/-- `{ error: msg }`. -/
def errObj (msg : Str) : Json := Json.obj (.cons "error".data (.str msg) .nil)

/-- `{ message: msg }`. -/
def msgObj (msg : Str) : Json := Json.obj (.cons "message".data (.str msg) .nil)

/-- `{ error: command.error }` where the error may be absent (`undefined`
is rendered as `null` in the embedding). -/
def errObjOpt (msg : Option Str) : Json :=
  Json.obj (.cons "error".data (match msg with | some s => .str s | none => .nul) .nil)

structure ExecOutcome where
  result : Json
  historyItem : CommandHistoryItem
  protocolStep : Option ProtocolStep := none
  calls : List TCall := []

/-- The `switch` of `executeCommand` together with its postlude: the final
result, the protocol step (if one was created) and the transport calls
made.  Transport rejections are caught and become the `error` local, which
the postlude folds into an `{error}` result; the protocol step is only
ever created after a call resolves, so a rejected call leaves it absent. -/
def execSwitch (env : Env) (t : Transport) (command : ParsedCommand) : ExecOutcome :=
  let acc : Json × Option Str × Option ProtocolStep × List TCall :=
    match command.type with
    | .help => (msgObj getCommandHelp, none, none, [])
    | .clear => (msgObj "Terminal cleared".data, none, none, [])
    | .history => (msgObj "Command history".data, none, none, [])
    | .connect =>
      if jsTruthy command.parameters then
        let url := jsDisplay (((command.parameters).getD .nul).field "url".data)
        if t.testConnection then
          (msgObj ("Connected to ".data ++ url), none, none, [.testConnection])
        else (.nul, some ("Failed to connect to ".data ++ url), none, [.testConnection])
      else (.nul, some "Missing connection parameters".data, none, [])
    | .functions_list =>
      match t.listFunctions with
      | .ok functions =>
        (Json.obj (.cons "functions".data functions .nil), none,
         some ⟨env.stepId, .request, some "GET".data, "/api/functions".data,
               Json.obj (.cons "response".data functions .nil), env.now, some env.elapsed⟩,
         [.listFunctions])
      | .error m => (.nul, some m, none, [.listFunctions])
    | .tools_list => (msgObj "Tool listing is not currently implemented".data, none, none, [])
    | .function_get =>
      if !jsTruthyStr command.functionName then
        (.nul, some "Missing function name".data, none, [])
      else
        let n := jsOrEmpty command.functionName
        match t.getFunction n with
        | .ok fd =>
          (Json.obj (.cons "function".data fd .nil), none,
           some ⟨env.stepId, .request, some "GET".data, "/api/functions/".data ++ n,
                 Json.obj (.cons "response".data fd .nil), env.now, some env.elapsed⟩,
           [.getFunction n])
        | .error m => (.nul, some m, none, [.getFunction n])
    | .call_function =>
      if !jsTruthyStr command.functionName then
        (.nul, some "Missing function name".data, none, [])
      else
        let n := jsOrEmpty command.functionName
        let params := if jsTruthy command.parameters then (command.parameters).getD .nul
          else Json.obj .nil
        let req := Json.obj (.cons "name".data (.str n) (.cons "parameters".data params .nil))
        match t.callFunction n params with
        | .ok callResult =>
          (callResult, none,
           some ⟨env.stepId, .request, some "POST".data, "/api/functions/call".data,
                 Json.obj (.cons "request".data req (.cons "response".data callResult .nil)),
                 env.now, some env.elapsed⟩,
           [.callFunction n params])
        | .error m => (.nul, some m, none, [.callFunction n params])
    | .call_tool =>
      if !jsTruthyStr command.functionName then
        (.nul, some "Missing tool name".data, none, [])
      else
        let n := jsOrEmpty command.functionName
        let params := if jsTruthy command.parameters then (command.parameters).getD .nul
          else Json.obj .nil
        let req := Json.obj (.cons "name".data (.str n) (.cons "parameters".data params .nil))
        match t.callTool n params with
        | .ok toolResult =>
          (toolResult, none,
           some ⟨env.stepId, .request, some "POST".data, "/api/tools/call".data,
                 Json.obj (.cons "request".data req (.cons "response".data toolResult .nil)),
                 env.now, some env.elapsed⟩,
           [.callTool n params])
        | .error m => (.nul, some m, none, [.callTool n params])
    | .execute =>
      if !jsTruthyStr command.text then
        (.nul, some "Missing text to execute".data, none, [])
      else
        let txt := jsOrEmpty command.text
        let req := Json.obj (.cons "text".data (.str txt) .nil)
        match t.executeText txt with
        | .ok executeResult =>
          (executeResult, none,
           some ⟨env.stepId, .request, some "POST".data, "/api/execute".data,
                 Json.obj (.cons "request".data req (.cons "response".data executeResult .nil)),
                 env.now, some env.elapsed⟩,
           [.executeText txt])
        | .error m => (.nul, some m, none, [.executeText txt])
    | .stream_function =>
      (Json.obj (.cons "message".data
          (.str ("Starting stream for function: ".data ++ jsDisplayStr command.functionName))
          (.cons "streaming".data (.bool true) .nil)),
       none, none, [])
    | .stream_tool =>
      (.nul, some ("Unsupported command type: ".data ++ CommandType.toStr .stream_tool),
       none, [])
  let result := if jsTruthyStr acc.2.1 then errObj (jsOrEmpty acc.2.1) else acc.1
  ⟨result, createHistoryItem env command result (some env.elapsed), acc.2.2.1, acc.2.2.2⟩

/-- `executeCommand(command, functionSchema?)`: optional schema validation
with an early return for a command the validator rejects, then the
dispatch switch.  The `Except` layer only carries the `TypeError` that
truthy primitive parameters would raise inside `validateCommand` (which
runs before the `try` block); every other failure is caught internally. -/
def executeCommand (rt : Str → Str → Bool) (env : Env) (t : Transport)
    (functionSchema : Option MCPFunctionDefinition) (command0 : ParsedCommand) :
    Except Str ExecOutcome :=
  match functionSchema with
  | some fd =>
    if jsTruthy command0.parameters then
      match validateCommand rt command0 fd with
      | .error e => .error e
      | .ok command =>
        if !command.valid then
          .ok ⟨errObjOpt command.error,
            createHistoryItem env command (errObjOpt command.error) (some env.elapsed),
            none, []⟩
        else .ok (execSwitch env t command)
    else .ok (execSwitch env t command0)
  | none => .ok (execSwitch env t command0)

/-! ## Application state (`appReducer` in the AppContext module) -/

structure ConnectionSettings where
  serverUrl : Str
  apiKey : Str
  connected : Bool
  error : Option Str := none

structure AppSettings where
  theme : Str
  fontSize : Nat
  showTimestamps : Bool
  expandResponses : Bool
  maxHistoryItems : Nat

structure FavoriteCommand where
  id : Str
  name : Str
  command : Str
  description : Option Str := none
  createdAt : Str

/-- `Partial<ConnectionSettings>` spread payload; an absent field leaves
the current value. -/
structure ConnPatch where
  serverUrl : Option Str := none
  apiKey : Option Str := none
  connected : Option Bool := none
  error : Option (Option Str) := none

/-- `Partial<AppSettings>` spread payload. -/
structure SettingsPatch where
  theme : Option Str := none
  fontSize : Option Nat := none
  showTimestamps : Option Bool := none
  expandResponses : Option Bool := none
  maxHistoryItems : Option Nat := none

structure AppState where
  connection : ConnectionSettings
  history : List CommandHistoryItem
  favorites : List FavoriteCommand
  settings : AppSettings
  protocol : List ProtocolStep
  isLoading : Bool
  error : Option Str := none

inductive AppAction where
  | setConnection (payload : ConnPatch)
  | setConnectionError (payload : Str)
  | clearConnectionError
  | addHistoryItem (payload : CommandHistoryItem)
  | clearHistory
  | toggleFavorite (payload : Str)
  | removeHistoryItem (payload : Str)
  | addFavorite (payload : FavoriteCommand)
  | removeFavorite (payload : Str)
  | updateFavorite (payload : FavoriteCommand)
  | updateSettings (payload : SettingsPatch)
  | addProtocolStep (payload : ProtocolStep)
  | clearProtocolSteps
  | setLoading (payload : Bool)
  | setError (payload : Option Str)

def mergeConn (c : ConnectionSettings) (p : ConnPatch) : ConnectionSettings :=
  ⟨p.serverUrl.getD c.serverUrl, p.apiKey.getD c.apiKey,
   p.connected.getD c.connected, p.error.getD c.error⟩

def mergeSettings (s : AppSettings) (p : SettingsPatch) : AppSettings :=
  ⟨p.theme.getD s.theme, p.fontSize.getD s.fontSize,
   p.showTimestamps.getD s.showTimestamps, p.expandResponses.getD s.expandResponses,
   p.maxHistoryItems.getD s.maxHistoryItems⟩

/-- `appReducer`: every case returns a whole-value replacement of the
state. -/
def appReducer (state : AppState) (action : AppAction) : AppState :=
  match action with
  | .setConnection p => { state with connection := mergeConn state.connection p }
  | .setConnectionError m =>
    { state with connection :=
        { state.connection with connected := false, error := some m } }
  | .clearConnectionError =>
    { state with connection := { state.connection with error := none } }
  | .addHistoryItem item =>
    { state with history := (item :: state.history).take state.settings.maxHistoryItems }
  | .clearHistory => { state with history := [] }
  | .toggleFavorite i =>
    { state with history := state.history.map fun it =>
        if it.id == i then { it with favorite := !it.favorite } else it }
  | .removeHistoryItem i =>
    { state with history := state.history.filter fun it => it.id != i }
  | .addFavorite f => { state with favorites := state.favorites ++ [f] }
  | .removeFavorite i =>
    { state with favorites := state.favorites.filter fun it => it.id != i }
  | .updateFavorite f =>
    { state with favorites := state.favorites.map fun it =>
        if it.id == f.id then f else it }
  | .updateSettings p => { state with settings := mergeSettings state.settings p }
  | .addProtocolStep s => { state with protocol := state.protocol ++ [s] }
  | .clearProtocolSteps => { state with protocol := [] }
  | .setLoading b => { state with isLoading := b }
  | .setError e => { state with error := e }

/-! ## The terminal command handler (`handleCommand` in
`src/components/Terminal/TerminalContainer.tsx`) -/

/-- What `handleCommand` attaches to the transcript entry of the executed
command (or the transcript reset performed by `clear`). -/
inductive TermOut where
  | nothing
  | cleared (infoLine : Str)
  | info (s : Str)
  | output (s : Str)
  | error (s : Str)

/-- Observable outcome of one `handleCommand` run: whether a transcript
entry was added, what was attached to it, the transport calls made and the
context actions dispatched, in order. -/
structure HandleResult where
  added : Bool
  out : TermOut
  calls : List TCall
  actions : List AppAction

/-- The help block `handleCommand` attaches for a parsed `help` command
(verbatim template literal, including its surrounding blank lines). -/
def terminalHelpText : Str :=
  String.data <|
    "" ++ "\n" ++
    "Available commands:" ++ "\n" ++
    "  help                                     - Show this help message" ++ "\n" ++
    "  clear                                    - Clear the terminal" ++ "\n" ++
    "  connect <url> <apiKey>                   - Connect to MCP server" ++ "\n" ++
    "  call <functionName> <parameters>         - Call a function" ++ "\n" ++
    "  tool <toolName> <parameters>             - Call a tool" ++ "\n" ++
    "  list functions                           - List available functions" ++ "\n" ++
    "  list tools                               - List available tools" ++ "\n" ++
    ""

/-- `undefined`-tolerant embedding of an optional value into a protocol
payload (`undefined` rendered as `null`). -/
def optJson (v : Option Json) : Json :=
  match v with
  | none => .nul
  | some v => v

def optStrJson (s : Option Str) : Json :=
  match s with
  | none => .nul
  | some s => .str s

/-- `functions.map(f => f.name)` with `Array.prototype.join` rendering of
non-string entries (`undefined` joins as the empty string). -/
def jarrNames (xs : JArr) : List Str :=
  match xs with
  | .nil => []
  | .cons v tl =>
    (match v.field "name".data with
     | some w => jsToString w
     | none => []) :: jarrNames tl

/-- `value || ''` rendered as the string the template literal would show. -/
def fieldOrEmptyStr (v : Option Json) : Str :=
  match v with
  | some w => if jsTruthyJson w then jsToString w else []
  | none => []

/-- The `handleCommand` closure of `TerminalContainer`: trim/empty guard,
parse, the `valid` gate, then the per-type blocks in source order.  The
transcript entry for the typed command is added before parsing; `clear`
replaces the transcript. -/
def handleCommand (env : Env) (t : Transport) (connected : Bool) (input : Str) :
    HandleResult :=
  if (jsTrim input).isEmpty then ⟨false, .nothing, [], []⟩
  else
    let parsed := parseCommand (jsTrim input)
    if !parsed.valid then
      ⟨true, .error ("Invalid command: ".data ++ jsDisplayStr parsed.error), [], []⟩
    else if parsed.type = .help then ⟨true, .info terminalHelpText, [], []⟩
    else if parsed.type = .clear then
      ⟨true, .cleared "Terminal cleared. Type \"help\" for available commands.".data,
       [], [.clearProtocolSteps]⟩
    else if parsed.type = .connect then
      let params := if jsTruthy parsed.parameters then (parsed.parameters).getD .nul
        else Json.obj .nil
      let url := fieldOrEmptyStr (params.field "url".data)
      let apiKey := fieldOrEmptyStr (params.field "apiKey".data)
      if t.testConnection then
        ⟨true, .info ("Connected to ".data ++ url),
         [.updateConfig url apiKey, .testConnection],
         [.setConnection ⟨some url, some apiKey, some true, none⟩]⟩
      else
        ⟨true, .error "Connection test failed".data,
         [.updateConfig url apiKey, .testConnection],
         [.setConnection ⟨some url, some apiKey, some false, none⟩]⟩
    else if !connected then
      ⟨true, .error "Not connected to server. Use `connect` command first.".data, [], []⟩
    else if parsed.type = .call_function then
      let n := jsOrEmpty parsed.functionName
      let params := if jsTruthy parsed.parameters then (parsed.parameters).getD .nul
        else Json.obj .nil
      match t.callFunction n params with
      | .ok result =>
        ⟨true, .output (sPretty 0 result), [.callFunction n params],
         [.addProtocolStep ⟨env.stepId, .request, some "POST".data,
            "/api/functions/call".data,
            Json.obj (.cons "request".data
              (Json.obj (.cons "name".data (optStrJson parsed.functionName)
                (.cons "parameters".data (optJson parsed.parameters) .nil)))
              (.cons "response".data result .nil)),
            env.now, none⟩]⟩
      | .error m => ⟨true, .error m, [.callFunction n params], []⟩
    else if parsed.type = .call_tool then
      let n := jsOrEmpty parsed.functionName
      let params := if jsTruthy parsed.parameters then (parsed.parameters).getD .nul
        else Json.obj .nil
      match t.callTool n params with
      | .ok result =>
        ⟨true, .output (sPretty 0 result), [.callTool n params],
         [.addProtocolStep ⟨env.stepId, .request, some "POST".data,
            "/api/tools/call".data,
            Json.obj (.cons "request".data
              (Json.obj (.cons "name".data (optStrJson parsed.functionName)
                (.cons "parameters".data (optJson parsed.parameters) .nil)))
              (.cons "response".data result .nil)),
            env.now, none⟩]⟩
      | .error m => ⟨true, .error m, [.callTool n params], []⟩
    else if parsed.type = .functions_list then
      match t.listFunctions with
      | .ok fns =>
        match fns with
        | .arr xs => ⟨true, .output (joinWith "\n".data (jarrNames xs)), [.listFunctions], []⟩
        | _ => ⟨true, .error "functions.map is not a function".data, [.listFunctions], []⟩
      | .error m => ⟨true, .error m, [.listFunctions], []⟩
    else if parsed.type = .tools_list then
      ⟨true, .info "Tool listing is not currently implemented".data, [], []⟩
    else
      ⟨true, .error ("Unknown command type: ".data ++ parsed.type.toStr), [], []⟩

/-! ## Helper lemmas -/

lemma dropWhile_eq_self_of_head {p : Char → Bool} {s : Str}
    (h : ∀ c, s.head? = some c → p c = false) : s.dropWhile p = s := by
  cases s with
  | nil => rfl
  | cons c t => simp [List.dropWhile_cons, h c rfl]

lemma jsTrim_eq_self {s : Str}
    (h1 : ∀ c, s.head? = some c → isJsWs c = false)
    (h2 : ∀ c, s.getLast? = some c → isJsWs c = false) : jsTrim s = s := by
  unfold jsTrim
  rw [dropWhile_eq_self_of_head h1]
  rw [dropWhile_eq_self_of_head (by simpa using h2)]
  exact List.reverse_reverse s

lemma takeWhile_append_of_all (p : Char → Bool) (xs ys : Str)
    (h : ∀ c ∈ xs, p c = true) (h2 : ∀ c, ys.head? = some c → p c = false) :
    (xs ++ ys).takeWhile p = xs ∧ (xs ++ ys).dropWhile p = ys := by
  induction xs with
  | nil =>
    simp only [List.nil_append]
    constructor
    · cases ys with
      | nil => rfl
      | cons c t => simp [List.takeWhile_cons, h2 c rfl]
    · exact dropWhile_eq_self_of_head h2
  | cons c t ih =>
    have hc : p c = true := h c (by simp)
    have iht := ih (fun c hc => h c (by simp [hc]))
    simp [List.takeWhile_cons, List.dropWhile_cons, hc, iht.1, iht.2]

lemma wsRun1_space {rest : Str}
    (h : ∀ c, rest.head? = some c → isJsWs c = false) :
    wsRun1 (' ' :: rest) = some rest := by
  simp [wsRun1, List.dropWhile_cons, dropWhile_eq_self_of_head h, isJsWs]

/-- C9: `ADD_HISTORY_ITEM` inserts the new item at the head and truncates
to `maxHistoryItems`, dropping exactly the oldest entries beyond the cap;
in particular, with cap 2 three successive appends retain the two most
recent items, most recent first. -/
theorem c9_history_append_truncates :
    (∀ (st : AppState) (item : CommandHistoryItem),
      (appReducer st (.addHistoryItem item)).history =
        (item :: st.history).take st.settings.maxHistoryItems ∧
      (appReducer st (.addHistoryItem item)).history.length ≤ st.settings.maxHistoryItems ∧
      (0 < st.settings.maxHistoryItems →
        (appReducer st (.addHistoryItem item)).history.head? = some item) ∧
      item :: st.history =
        (appReducer st (.addHistoryItem item)).history ++
          (item :: st.history).drop st.settings.maxHistoryItems) ∧
    (∀ (st : AppState) (i1 i2 i3 : CommandHistoryItem),
      st.history = [] → st.settings.maxHistoryItems = 2 →
      (appReducer (appReducer (appReducer st (.addHistoryItem i1))
        (.addHistoryItem i2)) (.addHistoryItem i3)).history = [i3, i2]) := by
  constructor
  · intro st item
    refine ⟨rfl, ?_, ?_, ?_⟩
    · simp only [appReducer]
      exact List.length_take_le _ _
    · intro hpos
      obtain ⟨n, hn⟩ := Nat.exists_eq_add_of_lt hpos
      simp [appReducer, hn, List.take_succ_cons]
    · simp only [appReducer]
      exact (List.take_append_drop st.settings.maxHistoryItems (item :: st.history)).symm
  · intro st i1 i2 i3 h0 hcap
    simp [appReducer, h0, hcap]

/-- C9 witness: the cap-2 scenario at concrete items. -/
theorem c9_history_append_truncates_witness :
    (appReducer (appReducer (appReducer
      ⟨⟨"u".data, "k".data, false, none⟩, [], [],
        ⟨"dark".data, 14, true, true, 2⟩, [], false, none⟩
      (.addHistoryItem ⟨"1".data, "t".data, "c".data,
        ⟨.help, none, none, none, true, none⟩, .nul, none, false⟩))
      (.addHistoryItem ⟨"2".data, "t".data, "c".data,
        ⟨.help, none, none, none, true, none⟩, .nul, none, false⟩))
      (.addHistoryItem ⟨"3".data, "t".data, "c".data,
        ⟨.help, none, none, none, true, none⟩, .nul, none, false⟩)).history =
    [⟨"3".data, "t".data, "c".data, ⟨.help, none, none, none, true, none⟩, .nul, none, false⟩,
     ⟨"2".data, "t".data, "c".data, ⟨.help, none, none, none, true, none⟩, .nul, none, false⟩] :=
  c9_history_append_truncates.2 _ _ _ _ rfl rfl

/-- C1 (counterexample): a `ParsedCommand` whose `valid` field is `false`
but whose type tag is `functions_list`, handed to `executeCommand` without
a schema, still reaches the transport: the recorded call trace is
`[listFunctions]`, so an invalid command is not universally barred from
downstream execution by the executor itself. -/
theorem c1_counterexample :
    (match executeCommand (fun _ _ => false) ⟨"i".data, "s".data, "n".data, 3⟩
        ⟨true, .ok (Json.arr .nil), fun _ => .ok .nul, fun _ _ => .ok .nul,
         fun _ _ => .ok .nul, fun _ => .ok .nul⟩ none
        ⟨.functions_list, none, none, none, false, some "syntax error".data⟩ with
      | .ok o => o.calls
      | .error _ => []) = [TCall.listFunctions] := rfl

/-- C1 (amended): in the terminal's command handler — the path through
which parsed commands are actually executed — a `ParsedCommand` with
`valid = false` triggers no transport call and no state action; the only
thing surfaced is its error message, regardless of the command's type tag.
`executeCommand` itself enforces this only for commands rejected by the
schema-validation pre-pass. -/
theorem c1_invalid_surfaces_error_only (env : Env) (t : Transport)
    (connected : Bool) (input : Str)
    (hne : (jsTrim input).isEmpty = false)
    (hinv : (parseCommand (jsTrim input)).valid = false) :
    handleCommand env t connected input =
      ⟨true, .error ("Invalid command: ".data ++
        jsDisplayStr (parseCommand (jsTrim input)).error), [], []⟩ := by
  simp [handleCommand, hne, hinv]

/-- C1 witness: a concrete unrecognized input. -/
theorem c1_invalid_surfaces_error_only_witness :
    handleCommand ⟨"i".data, "s".data, "n".data, 3⟩
      ⟨true, .ok (Json.arr .nil), fun _ => .ok .nul, fun _ _ => .ok .nul,
       fun _ _ => .ok .nul, fun _ => .ok .nul⟩ false "frobnicate".data =
      ⟨true, .error ("Invalid command: ".data ++
        jsDisplayStr (parseCommand (jsTrim "frobnicate".data)).error), [], []⟩ :=
  c1_invalid_surfaces_error_only _ _ _ _ rfl rfl

/-- C4 (counterexample): executing a valid `stream_tool` command does not
produce a `streaming=true` result — it falls into the executor's default
branch and yields the unsupported-command error; and even the valid
`stream_function` result carries no `parameters` field (the target is only
named inside the message string). -/
theorem c4_counterexample :
    (match executeCommand (fun _ _ => false) ⟨"i".data, "s".data, "n".data, 3⟩
        ⟨true, .ok .nul, fun _ => .ok .nul, fun _ _ => .ok .nul,
         fun _ _ => .ok .nul, fun _ => .ok .nul⟩ none
        ⟨.stream_tool, some "f".data, some (Json.obj .nil), none, true, none⟩ with
      | .ok o => some (o.result.field "streaming".data, o.result.field "error".data)
      | .error _ => none) =
      some (none, some (.str "Unsupported command type: stream_tool".data)) ∧
    (match executeCommand (fun _ _ => false) ⟨"i".data, "s".data, "n".data, 3⟩
        ⟨true, .ok .nul, fun _ => .ok .nul, fun _ _ => .ok .nul,
         fun _ _ => .ok .nul, fun _ => .ok .nul⟩ none
        ⟨.stream_function, some "f".data,
          some (Json.obj (.cons "a".data (Json.num "1".data) .nil)), none, true, none⟩ with
      | .ok o => some (o.result.field "streaming".data, o.result.field "parameters".data)
      | .error _ => none) =
      some (some (.bool true), none) := ⟨rfl, rfl⟩

/-- C4 (amended): for every valid `stream_function` command the executor
performs no transport call and returns a `streaming=true` result whose
message names the target (parameters are not included in the result);
a valid `stream_tool` command also performs no transport call but falls
into the default branch, yielding an `Unsupported command type` error
instead of a streaming result. -/
theorem c4_stream_handoff (rt : Str → Str → Bool) (env : Env) (t : Transport)
    (nm : Option Str) (p : Option Json) (txt er : Option Str) :
    (executeCommand rt env t none ⟨.stream_function, nm, p, txt, true, er⟩ =
      .ok ⟨Json.obj (.cons "message".data
            (.str ("Starting stream for function: ".data ++ jsDisplayStr nm))
            (.cons "streaming".data (.bool true) .nil)),
          createHistoryItem env ⟨.stream_function, nm, p, txt, true, er⟩
            (Json.obj (.cons "message".data
              (.str ("Starting stream for function: ".data ++ jsDisplayStr nm))
              (.cons "streaming".data (.bool true) .nil))) (some env.elapsed),
          none, []⟩) ∧
    (executeCommand rt env t none ⟨.stream_tool, nm, p, txt, true, er⟩ =
      .ok ⟨errObj ("Unsupported command type: stream_tool".data),
          createHistoryItem env ⟨.stream_tool, nm, p, txt, true, er⟩
            (errObj ("Unsupported command type: stream_tool".data)) (some env.elapsed),
          none, []⟩) :=
  ⟨rfl, rfl⟩

/-- C10: no input string parses to a `stream_tool` command (the `stream`
form always yields `stream_function`), and a `stream_tool` command handed
to the executor is handled only by its default branch, which produces an
`Unsupported command type` error rather than a streaming result, with no
transport call. -/
theorem c10_stream_tool_unreachable :
    (∀ s : Str, ((parseCommand s).type == CommandType.stream_tool) = false) ∧
    (∀ (rt : Str → Str → Bool) (env : Env) (t : Transport)
      (nm : Option Str) (p : Option Json) (txt er : Option Str) (vb : Bool),
      executeCommand rt env t none ⟨.stream_tool, nm, p, txt, vb, er⟩ =
        .ok ⟨errObj ("Unsupported command type: stream_tool".data),
            createHistoryItem env ⟨.stream_tool, nm, p, txt, vb, er⟩
              (errObj ("Unsupported command type: stream_tool".data)) (some env.elapsed),
            none, []⟩) := by
  constructor
  · intro s
    simp only [parseCommand, parseConnectRest, parseListsRest, parseFnGetRest,
      parseCallRest, parseToolRest, parseStreamRest]
    repeat' split
    all_goals simp
  · intro rt env t nm p txt er vb
    rfl

lemma jsTruthyStr_true {o : Option Str} (h : jsTruthyStr o = true) :
    ∃ s, o = some s ∧ s.isEmpty = false := by
  cases o with
  | none => simp [jsTruthyStr] at h
  | some s => exact ⟨s, rfl, by simpa [jsTruthyStr] using h⟩

/-- The transport whose every operation rejects with the same message. -/
def failTransport (msg : Str) : Transport :=
  ⟨false, .error msg, fun _ => .error msg, fun _ _ => .error msg,
   fun _ _ => .error msg, fun _ => .error msg⟩

/-- `command.parameters || {}`. -/
def paramsOrEmptyObj (p : Option Json) : Json :=
  if jsTruthy p then p.getD .nul else Json.obj .nil

/-- The single transport call a dispatching command variant performs. -/
def dispatchCalls (cmd : ParsedCommand) : List TCall :=
  match cmd.type with
  | .functions_list => [.listFunctions]
  | .function_get => [.getFunction (jsOrEmpty cmd.functionName)]
  | .call_function =>
    [.callFunction (jsOrEmpty cmd.functionName) (paramsOrEmptyObj cmd.parameters)]
  | .call_tool =>
    [.callTool (jsOrEmpty cmd.functionName) (paramsOrEmptyObj cmd.parameters)]
  | .execute => [.executeText (jsOrEmpty cmd.text)]
  | _ => []

/-- C2 (amended): when the transport call of any dispatching variant
rejects with a non-empty message, the executor catches the failure: the
result is `\x7berror: message\x7d`, a complete `CommandHistoryItem` is
still produced with that error as its response and the measured duration,
no protocol step is surfaced (none is started before the call resolves,
so there is nothing to re-tag), and `execute` returns normally instead of
propagating the exception.  The non-empty qualification is forced by the
source: an empty message is falsy and skips the `\x7berror\x7d`
conversion (see the counterexample). -/
theorem c2_transport_failure_contained (rt : Str → Str → Bool) (env : Env)
    (msg : Str) (cmd : ParsedCommand) (hmsg : msg.isEmpty = false)
    (hdisp : cmd.type = .functions_list ∨
      (cmd.type = .function_get ∧ jsTruthyStr cmd.functionName = true) ∨
      (cmd.type = .call_function ∧ jsTruthyStr cmd.functionName = true) ∨
      (cmd.type = .call_tool ∧ jsTruthyStr cmd.functionName = true) ∨
      (cmd.type = .execute ∧ jsTruthyStr cmd.text = true)) :
    executeCommand rt env (failTransport msg) none cmd =
      .ok ⟨errObj msg,
        ⟨env.newId, env.now, formatCommandString cmd, cmd, errObj msg,
          some env.elapsed, false⟩,
        none, dispatchCalls cmd⟩ := by
  rcases hdisp with h | ⟨h, hf⟩ | ⟨h, hf⟩ | ⟨h, hf⟩ | ⟨h, hf⟩
  · simp [executeCommand, execSwitch, failTransport, dispatchCalls, h,
      createHistoryItem, hmsg, jsTruthyStr, jsOrEmpty]
  all_goals
    obtain ⟨w, hfn, hw⟩ := jsTruthyStr_true hf
    simp [executeCommand, execSwitch, failTransport, dispatchCalls, h, hfn, hw,
      createHistoryItem, hmsg, jsTruthyStr, jsOrEmpty, paramsOrEmptyObj]

/-- C2 witness: a failing `call_function` dispatch at concrete inputs. -/
theorem c2_transport_failure_contained_witness :
    executeCommand (fun _ _ => false) ⟨"i".data, "s".data, "n".data, 3⟩
      (failTransport "network down".data) none
      ⟨.call_function, some "f".data, some (Json.obj .nil), none, true, none⟩ =
      .ok ⟨errObj "network down".data,
        ⟨"i".data, "n".data,
         formatCommandString
           ⟨.call_function, some "f".data, some (Json.obj .nil), none, true, none⟩,
         ⟨.call_function, some "f".data, some (Json.obj .nil), none, true, none⟩,
         errObj "network down".data, some 3, false⟩,
        none,
        dispatchCalls
          ⟨.call_function, some "f".data, some (Json.obj .nil), none, true, none⟩⟩ :=
  c2_transport_failure_contained _ _ _ _ rfl (Or.inr (Or.inr (Or.inl ⟨rfl, rfl⟩)))

/-- A list differing from `lit` within its concrete prefix `pre` cannot
equal `lit`. -/
lemma prefix_neq {pre lit : Str} (tail : Str) (h : lit.take pre.length ≠ pre) :
    pre ++ tail ≠ lit := by
  intro he
  exact h (by rw [← he, List.take_left])

lemma nameChar_not_ws {c : Char} (h : isNameChar c = true) : isJsWs c = false := by
  simp only [isNameChar, isJsWs, Bool.or_eq_true, Bool.and_eq_true, decide_eq_true_eq,
    Bool.or_eq_false_iff, Bool.and_eq_false_iff, decide_eq_false_iff_not, beq_iff_eq,
    beq_eq_false_iff_ne, ne_eq] at *
  omega

/-- Well-formed name token for the `[a-zA-Z0-9._]+` capture. -/
def goodName (name : Str) : Bool := !name.isEmpty && name.all isNameChar

def headNotWs (s : Str) : Bool :=
  match s with
  | [] => true
  | c :: _ => !isJsWs c

/-- JSON-blob remainder acceptable to the `(.+)$` capture on a trimmed
line: non-empty, not starting or ending in whitespace, free of line
terminators. -/
def goodBlob (blob : Str) : Bool :=
  !blob.isEmpty && headNotWs blob && headNotWs blob.reverse &&
    blob.all (fun c => !isLineTerm c)

/-- A `[^\s]+` token: non-empty, no whitespace at all. -/
def goodToken (s : Str) : Bool := !s.isEmpty && s.all (fun c => !isJsWs c)

lemma goodName_spec {n : Str} (h : goodName n = true) :
    n ≠ [] ∧ ∀ c ∈ n, isNameChar c = true := by
  simp only [goodName, Bool.and_eq_true, Bool.not_eq_true', List.isEmpty_eq_false,
    List.all_eq_true] at h
  exact h

lemma headNotWs_spec {s : Str} (h : headNotWs s = true) :
    ∀ c, s.head? = some c → isJsWs c = false := by
  cases s with
  | nil => intro c hc; simp at hc
  | cons a t =>
    intro c hc
    simp only [List.head?_cons, Option.some.injEq] at hc
    subst hc
    simpa [headNotWs] using h

lemma goodBlob_spec {b : Str} (h : goodBlob b = true) :
    b ≠ [] ∧ (∀ c, b.head? = some c → isJsWs c = false) ∧
    (∀ c, b.getLast? = some c → isJsWs c = false) ∧
    (∀ c ∈ b, isLineTerm c = false) := by
  simp only [goodBlob, Bool.and_eq_true, Bool.not_eq_true', List.isEmpty_eq_false,
    List.all_eq_true] at h
  refine ⟨h.1.1.1, headNotWs_spec h.1.1.2, ?_, h.2⟩
  intro c hc
  exact headNotWs_spec h.1.2 c (by simpa using hc)

lemma goodToken_spec {s : Str} (h : goodToken s = true) :
    s ≠ [] ∧ ∀ c ∈ s, isJsWs c = false := by
  simp only [goodToken, Bool.and_eq_true, Bool.not_eq_true', List.isEmpty_eq_false,
    List.all_eq_true] at h
  exact h

lemma kwNameRest_eq {kw input name blob : Str}
    (hstrip : stripCI kw input = some (' ' :: (name ++ ' ' :: blob)))
    (hn : goodName name = true) (hb : goodBlob blob = true) :
    kwNameRest kw input = some (name, blob) := by
  obtain ⟨hne, hall⟩ := goodName_spec hn
  obtain ⟨bne, bh, _, blt⟩ := goodBlob_spec hb
  have hh : ∀ c, (name ++ ' ' :: blob).head? = some c → isJsWs c = false := by
    cases name with
    | nil => exact absurd rfl hne
    | cons a t =>
      intro c hc
      simp only [List.cons_append, List.head?_cons, Option.some.injEq] at hc
      exact hc ▸ nameChar_not_ws (hall a (by simp))
  have htk := takeWhile_append_of_all isNameChar name (' ' :: blob)
    hall (by intro c hc; simp only [List.head?_cons, Option.some.injEq] at hc; exact hc ▸ (by decide))
  have hnameE : name.isEmpty = false := by simpa using hne
  have hblobE : blob.isEmpty = false := by simpa using bne
  have hbltE : blob.any isLineTerm = false := by
    simp only [List.any_eq_false]
    intro c hc
    simp [blt c hc]
  simp only [kwNameRest, hstrip, wsRun1_space hh, htk.1, htk.2, wsRun1_space bh]
  simp [hnameE, hblobE, hbltE]

lemma getLast?_of_append_right {xs ys : Str} (hne : ys ≠ [])
    {c : Char} (hc : (xs ++ ys).getLast? = some c) : ys.getLast? = some c := by
  obtain ⟨d, hd⟩ : ∃ d, ys.getLast? = some d := by
    cases hbl : ys.getLast? with
    | none => exact absurd (List.getLast?_eq_none_iff.mp hbl) hne
    | some d => exact ⟨d, rfl⟩
  rw [List.getLast?_append, hd] at hc
  simpa [hd] using hc

lemma parse_call_shaped (name blob : Str)
    (hn : goodName name = true) (hb : goodBlob blob = true) :
    parseCommand ("call ".data ++ (name ++ ' ' :: blob)) =
      (match jsonParse blob with
       | some v => ⟨.call_function, some name, some v, none, true, none⟩
       | none => ⟨.call_function, some name, none, none, false, some jsonErrMsg⟩) := by
  obtain ⟨bne, bh, blast, blt⟩ := goodBlob_spec hb
  have htrim : jsTrim ("call ".data ++ (name ++ ' ' :: blob)) =
      "call ".data ++ (name ++ ' ' :: blob) := by
    apply jsTrim_eq_self
    · intro c hc
      rw [show ("call ".data ++ (name ++ ' ' :: blob)).head? = some 'c' from rfl] at hc
      cases hc
      decide
    · intro c hc
      rw [show "call ".data ++ (name ++ ' ' :: blob) =
        ("call ".data ++ name ++ [' ']) ++ blob by simp] at hc
      exact blast c (getLast?_of_append_right bne hc)
  have h0 : parseCommand ("call ".data ++ (name ++ ' ' :: blob)) =
      parseCallRest ("call ".data ++ (name ++ ' ' :: blob)) := by
    unfold parseCommand
    rw [htrim]
    rfl
  have hstrip : stripCI "call".data ("call ".data ++ (name ++ ' ' :: blob)) =
      some (' ' :: (name ++ ' ' :: blob)) := rfl
  rw [h0]
  unfold parseCallRest
  rw [kwNameRest_eq hstrip hn hb]

lemma parse_tool_shaped (name blob : Str)
    (hn : goodName name = true) (hb : goodBlob blob = true) :
    parseCommand ("tool ".data ++ (name ++ ' ' :: blob)) =
      (match jsonParse blob with
       | some v => ⟨.call_tool, some name, some v, none, true, none⟩
       | none => ⟨.call_tool, some name, none, none, false, some jsonErrMsg⟩) := by
  obtain ⟨bne, bh, blast, blt⟩ := goodBlob_spec hb
  have htrim : jsTrim ("tool ".data ++ (name ++ ' ' :: blob)) =
      "tool ".data ++ (name ++ ' ' :: blob) := by
    apply jsTrim_eq_self
    · intro c hc
      rw [show ("tool ".data ++ (name ++ ' ' :: blob)).head? = some 't' from rfl] at hc
      cases hc
      decide
    · intro c hc
      rw [show "tool ".data ++ (name ++ ' ' :: blob) =
        ("tool ".data ++ name ++ [' ']) ++ blob by simp] at hc
      exact blast c (getLast?_of_append_right bne hc)
  have h0 : parseCommand ("tool ".data ++ (name ++ ' ' :: blob)) =
      parseToolRest ("tool ".data ++ (name ++ ' ' :: blob)) := by
    unfold parseCommand
    rw [htrim]
    rfl
  have hstrip : stripCI "tool".data ("tool ".data ++ (name ++ ' ' :: blob)) =
      some (' ' :: (name ++ ' ' :: blob)) := rfl
  rw [h0]
  unfold parseToolRest
  rw [kwNameRest_eq hstrip hn hb]

lemma parse_stream_shaped (name blob : Str)
    (hn : goodName name = true) (hb : goodBlob blob = true) :
    parseCommand ("stream ".data ++ (name ++ ' ' :: blob)) =
      (match jsonParse blob with
       | some v => ⟨.stream_function, some name, some v, none, true, none⟩
       | none => ⟨.stream_function, some name, none, none, false, some jsonErrMsg⟩) := by
  obtain ⟨bne, bh, blast, blt⟩ := goodBlob_spec hb
  have htrim : jsTrim ("stream ".data ++ (name ++ ' ' :: blob)) =
      "stream ".data ++ (name ++ ' ' :: blob) := by
    apply jsTrim_eq_self
    · intro c hc
      rw [show ("stream ".data ++ (name ++ ' ' :: blob)).head? = some 's' from rfl] at hc
      cases hc
      decide
    · intro c hc
      rw [show "stream ".data ++ (name ++ ' ' :: blob) =
        ("stream ".data ++ name ++ [' ']) ++ blob by simp] at hc
      exact blast c (getLast?_of_append_right bne hc)
  have h0 : parseCommand ("stream ".data ++ (name ++ ' ' :: blob)) =
      parseStreamRest ("stream ".data ++ (name ++ ' ' :: blob)) := by
    unfold parseCommand
    rw [htrim]
    rfl
  have hstrip : stripCI "stream".data ("stream ".data ++ (name ++ ' ' :: blob)) =
      some (' ' :: (name ++ ' ' :: blob)) := rfl
  rw [h0]
  unfold parseStreamRest
  rw [kwNameRest_eq hstrip hn hb]

lemma connectMatch_eq {u k : Str} (hu : goodToken u = true) (hk : goodToken k = true) :
    connectMatch ("connect ".data ++ (u ++ ' ' :: k)) = some (u, k) := by
  obtain ⟨une, uall⟩ := goodToken_spec hu
  obtain ⟨kne, kall⟩ := goodToken_spec hk
  have hstrip : stripCI "connect".data ("connect ".data ++ (u ++ ' ' :: k)) =
      some (' ' :: (u ++ ' ' :: k)) := rfl
  have hh : ∀ c, (u ++ ' ' :: k).head? = some c → isJsWs c = false := by
    cases u with
    | nil => exact absurd rfl une
    | cons a t =>
      intro c hc
      simp only [List.cons_append, List.head?_cons, Option.some.injEq] at hc
      exact hc ▸ uall a (by simp)
  have hkE : ∀ c, k.head? = some c → isJsWs c = false := by
    cases k with
    | nil => exact absurd rfl kne
    | cons a t =>
      intro c hc
      simp only [List.head?_cons, Option.some.injEq] at hc
      exact hc ▸ kall a (by simp)
  have htk := takeWhile_append_of_all (fun c => !isJsWs c) u (' ' :: k)
    (by intro c hc; simp [uall c hc])
    (by
      intro c hc
      simp only [List.head?_cons, Option.some.injEq] at hc
      exact hc ▸ (by decide))
  have hkk := takeWhile_append_of_all (fun c => !isJsWs c) k ([] : Str)
    (by intro c hc; simp [kall c hc]) (by intro c hc; simp at hc)
  have h1 : u.isEmpty = false := by simpa using une
  have h2 : k.isEmpty = false := by simpa using kne
  have h3 : k.takeWhile (fun c => !isJsWs c) = k := by simpa using hkk.1
  have h4 : k.dropWhile (fun c => !isJsWs c) = [] := by simpa using hkk.2
  simp only [connectMatch, hstrip, wsRun1_space hh, htk.1, htk.2, wsRun1_space hkE, h3, h4]
  simp [h1, h2]

lemma parse_connect_shaped (u k : Str) (hu : goodToken u = true) (hk : goodToken k = true) :
    parseCommand ("connect ".data ++ (u ++ ' ' :: k)) =
      ⟨.connect, none,
        some (Json.obj (.cons "url".data (.str u) (.cons "apiKey".data (.str k) .nil))),
        none, true, none⟩ := by
  obtain ⟨kne, kall⟩ := goodToken_spec hk
  have htrim : jsTrim ("connect ".data ++ (u ++ ' ' :: k)) =
      "connect ".data ++ (u ++ ' ' :: k) := by
    apply jsTrim_eq_self
    · intro c hc
      rw [show ("connect ".data ++ (u ++ ' ' :: k)).head? = some 'c' from rfl] at hc
      cases hc
      decide
    · intro c hc
      rw [show "connect ".data ++ (u ++ ' ' :: k) =
        ("connect ".data ++ u ++ [' ']) ++ k by simp] at hc
      exact kall c (List.mem_of_mem_getLast?
        (by rw [getLast?_of_append_right kne hc]; simp))
  have h0 : parseCommand ("connect ".data ++ (u ++ ' ' :: k)) =
      parseConnectRest ("connect ".data ++ (u ++ ' ' :: k)) := by
    unfold parseCommand
    rw [htrim]
    rfl
  rw [h0]
  unfold parseConnectRest
  rw [connectMatch_eq hu hk]

/-- C5: every `call <name> <json>` input whose name is drawn from the
`[a-zA-Z0-9._]+` class and whose remainder parses as JSON yields a valid
`call_function` command carrying that name and the parsed JSON value. -/
theorem c5_parse_call_valid_json (name blob : Str) (v : Json)
    (hn : goodName name = true) (hb : goodBlob blob = true)
    (hjson : jsonParse blob = some v) :
    parseCommand ("call ".data ++ (name ++ ' ' :: blob)) =
      ⟨.call_function, some name, some v, none, true, none⟩ := by
  rw [parse_call_shaped name blob hn hb, hjson]

/-- C5 witness: `call calc.add` with a two-field JSON object. -/
theorem c5_parse_call_valid_json_witness :
    parseCommand ("call ".data ++
        ("calc.add".data ++ ' ' :: "\x7b\"a\":5,\"b\":3\x7d".data)) =
      ⟨.call_function, some "calc.add".data,
        some (Json.obj (.cons "a".data (Json.num "5".data)
          (.cons "b".data (Json.num "3".data) .nil))), none, true, none⟩ :=
  c5_parse_call_valid_json _ _ _ rfl rfl rfl

/-- C6: for each of the `call`, `tool` and `stream` forms, a remainder that
is not valid JSON never throws past the parser: the corresponding variant
comes back with `valid = false`, the extracted name preserved, and the
fixed invalid-JSON message. -/
theorem c6_invalid_json_flagged (name blob : Str)
    (hn : goodName name = true) (hb : goodBlob blob = true)
    (hjson : jsonParse blob = none) :
    parseCommand ("call ".data ++ (name ++ ' ' :: blob)) =
      ⟨.call_function, some name, none, none, false, some jsonErrMsg⟩ ∧
    parseCommand ("tool ".data ++ (name ++ ' ' :: blob)) =
      ⟨.call_tool, some name, none, none, false, some jsonErrMsg⟩ ∧
    parseCommand ("stream ".data ++ (name ++ ' ' :: blob)) =
      ⟨.stream_function, some name, none, none, false, some jsonErrMsg⟩ := by
  rw [parse_call_shaped name blob hn hb, parse_tool_shaped name blob hn hb,
    parse_stream_shaped name blob hn hb, hjson]
  exact ⟨rfl, rfl, rfl⟩

/-- C6 witness: a malformed blob under all three keywords. -/
theorem c6_invalid_json_flagged_witness :
    parseCommand ("call ".data ++ ("f".data ++ ' ' :: "\x7bbad".data)) =
      ⟨.call_function, some "f".data, none, none, false, some jsonErrMsg⟩ ∧
    parseCommand ("tool ".data ++ ("f".data ++ ' ' :: "\x7bbad".data)) =
      ⟨.call_tool, some "f".data, none, none, false, some jsonErrMsg⟩ ∧
    parseCommand ("stream ".data ++ ("f".data ++ ' ' :: "\x7bbad".data)) =
      ⟨.stream_function, some "f".data, none, none, false, some jsonErrMsg⟩ :=
  c6_invalid_json_flagged _ _ rfl rfl rfl

/-- C3 (counterexample): executing a valid `connect` command through the
executor records only the connectivity test in the transport-call trace —
no reconfiguration call precedes it, contradicting the claim that the
executor reconfigures the transport's target and credential. -/
theorem c3_counterexample :
    (match executeCommand (fun _ _ => false) ⟨"i".data, "s".data, "n".data, 3⟩
        ⟨false, .ok .nul, fun _ => .ok .nul, fun _ _ => .ok .nul,
         fun _ _ => .ok .nul, fun _ => .ok .nul⟩ none
        ⟨.connect, none, some (Json.obj (.cons "url".data (.str "http://bad".data)
          (.cons "apiKey".data (.str "k1".data) .nil))), none, true, none⟩ with
      | .ok o => some o.calls
      | .error _ => none) = some [TCall.testConnection] := rfl

/-- C3 (amended): the executor's `connect` handling invokes only the
transport's connectivity test (the reconfiguration happens in the terminal
container's connect handling before the test, not in the executor): on
test success the result is the connected confirmation naming the URL, on
failure an error naming the attempted URL, and the call never throws; the
terminal handler's trace for a connect input is exactly
`updateConfig` followed by `testConnection`. -/
theorem c3_connect_test_without_reconfigure (u k : Str)
    (hu : goodToken u = true) (hk : goodToken k = true) :
    (∀ (rt : Str → Str → Bool) (env : Env) (t : Transport) (txt er : Option Str),
      executeCommand rt env t none
        ⟨.connect, none, some (Json.obj (.cons "url".data (.str u)
          (.cons "apiKey".data (.str k) .nil))), txt, true, er⟩ =
        .ok ⟨(if t.testConnection then msgObj ("Connected to ".data ++ u)
              else errObj ("Failed to connect to ".data ++ u)),
            createHistoryItem env
              ⟨.connect, none, some (Json.obj (.cons "url".data (.str u)
                (.cons "apiKey".data (.str k) .nil))), txt, true, er⟩
              (if t.testConnection then msgObj ("Connected to ".data ++ u)
               else errObj ("Failed to connect to ".data ++ u)) (some env.elapsed),
            none, [TCall.testConnection]⟩) ∧
    (∀ (env : Env) (t : Transport) (connected : Bool),
      (handleCommand env t connected ("connect ".data ++ (u ++ ' ' :: k))).calls =
        [TCall.updateConfig u k, TCall.testConnection]) := by
  obtain ⟨une, _⟩ := goodToken_spec hu
  obtain ⟨kne, kall⟩ := goodToken_spec hk
  have hue : u.isEmpty = false := by simpa using une
  have hke : k.isEmpty = false := by simpa using kne
  have hget1 : (Json.obj (.cons "url".data (.str u)
      (.cons "apiKey".data (.str k) .nil))).field "url".data = some (.str u) := rfl
  have hget2 : (Json.obj (.cons "url".data (.str u)
      (.cons "apiKey".data (.str k) .nil))).field "apiKey".data = some (.str k) := rfl
  constructor
  · intro rt env t txt er
    cases ht : t.testConnection <;>
      simp [executeCommand, execSwitch, ht, hget1, hget2, jsDisplay, jsToString,
        jsTruthy, jsTruthyJson, jsTruthyStr, jsOrEmpty, createHistoryItem]
  · intro env t connected
    have htrim : jsTrim ("connect ".data ++ (u ++ ' ' :: k)) =
        "connect ".data ++ (u ++ ' ' :: k) := by
      apply jsTrim_eq_self
      · intro c hc
        rw [show ("connect ".data ++ (u ++ ' ' :: k)).head? = some 'c' from rfl] at hc
        cases hc
        decide
      · intro c hc
        rw [show "connect ".data ++ (u ++ ' ' :: k) =
          ("connect ".data ++ u ++ [' ']) ++ k by simp] at hc
        exact kall c (List.mem_of_mem_getLast?
          (by rw [getLast?_of_append_right kne hc]; simp))
    have hp := parse_connect_shaped u k hu hk
    unfold handleCommand
    rw [htrim, hp]
    cases ht : t.testConnection <;>
      simp [fieldOrEmptyStr, hget1, hget2, ht,
        jsTruthy, jsTruthyJson, jsToString, hue, hke]

/-- C3 witness: the amended behavior at concrete URL and key. -/
theorem c3_connect_test_without_reconfigure_witness :
    (executeCommand (fun _ _ => false) ⟨"i".data, "s".data, "n".data, 3⟩
      ⟨false, .ok .nul, fun _ => .ok .nul, fun _ _ => .ok .nul,
       fun _ _ => .ok .nul, fun _ => .ok .nul⟩ none
      ⟨.connect, none, some (Json.obj (.cons "url".data (.str "http://x".data)
        (.cons "apiKey".data (.str "k1".data) .nil))), none, true, none⟩ =
      .ok ⟨(if (false : Bool) then msgObj ("Connected to ".data ++ "http://x".data)
            else errObj ("Failed to connect to ".data ++ "http://x".data)),
          createHistoryItem ⟨"i".data, "s".data, "n".data, 3⟩
            ⟨.connect, none, some (Json.obj (.cons "url".data (.str "http://x".data)
              (.cons "apiKey".data (.str "k1".data) .nil))), none, true, none⟩
            (if (false : Bool) then msgObj ("Connected to ".data ++ "http://x".data)
             else errObj ("Failed to connect to ".data ++ "http://x".data)) (some 3),
          none, [TCall.testConnection]⟩) ∧
    (handleCommand ⟨"i".data, "s".data, "n".data, 3⟩
      ⟨false, .ok .nul, fun _ => .ok .nul, fun _ _ => .ok .nul,
       fun _ _ => .ok .nul, fun _ => .ok .nul⟩ false
      ("connect ".data ++ ("http://x".data ++ ' ' :: "k1".data))).calls =
      [TCall.updateConfig "http://x".data "k1".data, TCall.testConnection] :=
  ⟨(c3_connect_test_without_reconfigure "http://x".data "k1".data rfl rfl).1
      (fun _ _ => false) _ _ none none,
   (c3_connect_test_without_reconfigure "http://x".data "k1".data rfl rfl).2 _ _ false⟩

/-! ## C8: the missing-required characterization of `validateParameters` -/

lemma propErrors1_head (rt : Str → Str → Bool) (p : JObj) (n : Str) (ps : Schema) :
    ∀ e ∈ propErrors1 rt p n ps,
      e.head? = some 'I' ∨ e.head? = some 'P' ∨ e.head? = some 'A' := by
  intro e he
  unfold propErrors1 at he
  split at he
  · simp at he
  · simp only [List.mem_append] at he
    rcases he with ((he | he) | he) | he <;> repeat' split at he
    all_goals simp_all [invalidTypeMsg, tooShortMsg, tooLongMsg, patternMsg,
      tooSmallMsg, tooLargeMsg, tooFewMsg, tooManyMsg]
    all_goals
      first
      | (rcases he with he | he | he <;> simp [he])
      | (rcases he with he | he <;> simp [he])

/-- C8 (counterexample): with `required = ["a"]` and an empty value bag the
collected error is `"Missing required parameter: a"` — capitalized — so the
claim's quoted lower-case message `"missing required parameter: a"` is
never emitted. -/
theorem c8_counterexample :
    (validateParameters (fun _ _ => false) JObj.nil
      (Schema.mk none (some ["a".data]) none none none none none none none none)).errors =
      some ["Missing required parameter: a".data] ∧
    ¬ ("missing required parameter: a".data ∈
      (validateParameters (fun _ _ => false) JObj.nil
        (Schema.mk none (some ["a".data]) none none none none none none
          none none)).errors.getD []) :=
  ⟨rfl, by decide⟩

/-- C8 (amended): `validateParameters` emits the error
`"Missing required parameter: <name>"` for exactly those names listed in
`schema.required` that are absent from the value bag (no other check can
produce a message of that shape), and the result is `valid = true` iff the
collected error list is empty (`errors` itself is that list, or absent when
empty). -/
theorem c8_missing_required_characterized (rt : Str → Str → Bool)
    (parameters : JObj) (schema : Schema) :
    (∀ name : Str,
      ("Missing required parameter: ".data ++ name) ∈ vpErrors rt parameters schema ↔
        (name ∈ schema.required.getD [] ∧ parameters.hasKey name = false)) ∧
    ((validateParameters rt parameters schema).valid = true ↔
      vpErrors rt parameters schema = []) ∧
    (validateParameters rt parameters schema).errors =
      (if vpErrors rt parameters schema = [] then none
       else some (vpErrors rt parameters schema)) := by
  refine ⟨?_, ?_, ?_⟩
  · intro name
    constructor
    · intro hmem
      rw [vpErrors, List.mem_append] at hmem
      rcases hmem with hmem | hmem
      · rw [requiredErrors, List.mem_filterMap] at hmem
        obtain ⟨r, hr, hsome⟩ := hmem
        by_cases hk : parameters.hasKey r = true
        · simp [hk] at hsome
        · rw [if_neg (by simp [hk])] at hsome
          have hreq : r = name :=
            (List.append_right_inj _).mp (Option.some.inj hsome)
          subst hreq
          exact ⟨hr, by simpa using hk⟩
      · exfalso
        rw [List.mem_flatMap] at hmem
        obtain ⟨ent, _, hin⟩ := hmem
        have hd := propErrors1_head rt parameters ent.1 ent.2 _ hin
        have hM : ("Missing required parameter: ".data ++ name).head? = some 'M' := rfl
        rw [hM] at hd
        rcases hd with h | h | h <;> exact absurd (Option.some.inj h) (by decide)
    · rintro ⟨hreq, hk⟩
      rw [vpErrors, List.mem_append]
      left
      rw [requiredErrors, List.mem_filterMap]
      exact ⟨name, hreq, by simp [hk, missingMsg]⟩
  · simp [validateParameters, List.isEmpty_iff]
  · simp [validateParameters]

/-! ## C7: round-trip of the canonical serializer through the parser -/

lemma getLast?_append_right {xs ys : Str} (hne : ys ≠ []) :
    (xs ++ ys).getLast? = ys.getLast? := by
  cases hy : ys.getLast? with
  | none => exact absurd (List.getLast?_eq_none_iff.mp hy) hne
  | some d => rw [List.getLast?_append, hy]; rfl

lemma toNat_ofNat_small {n : Nat} (h : n < 0xd800) : (Char.ofNat n).toNat = n := by
  have hv : n.isValidChar := Or.inl h
  rw [Char.ofNat, dif_pos hv]
  rfl

lemma hexVal_hexDigitCh {d : Nat} (h : d < 16) : hexVal (hexDigitCh d) = some d := by
  unfold hexVal hexDigitCh
  by_cases h10 : d < 10
  · rw [if_pos h10, toNat_ofNat_small (by omega)]
    rw [if_pos (by simp only [Bool.and_eq_true, decide_eq_true_eq]; omega)]
    congr 1
    omega
  · rw [if_neg h10, toNat_ofNat_small (by omega)]
    rw [if_neg (by simp only [Bool.and_eq_true, decide_eq_true_eq]; omega)]
    rw [if_pos (by simp only [Bool.and_eq_true, decide_eq_true_eq]; omega)]
    congr 1
    omega

lemma parseStrBody_escape : ∀ (s rest : Str),
    parseStrBody (escapeStr s ++ '"' :: rest) = some (s, rest)
  | [], rest => by
    have h0 : escapeStr [] ++ '"' :: rest = '"' :: rest := by simp [escapeStr]
    rw [h0, parseStrBody.eq_def]
    simp
  | c :: s, rest => by
    have ih := parseStrBody_escape s rest
    have hesc : escapeStr (c :: s) ++ '"' :: rest =
        escChar c ++ (escapeStr s ++ '"' :: rest) := by
      simp [escapeStr]
    rw [hesc]
    unfold escChar
    split_ifs with h1 h2 h3 h4 h5 h6 h7 h8
    · have hc : c = '"' := by simpa using h1
      subst hc
      simp [parseStrBody, escTable, ih]
    · have hc : c = '\\' := by simpa using h2
      subst hc
      simp [parseStrBody, escTable, ih]
    · have hc : c = Char.ofNat 8 := by simpa using h3
      subst hc
      simp [parseStrBody, escTable, ih]
    · have hc : c = Char.ofNat 12 := by simpa using h4
      subst hc
      simp [parseStrBody, escTable, ih]
    · have hc : c = '\n' := by simpa using h5
      subst hc
      simp [parseStrBody, escTable, ih]
    · have hc : c = '\r' := by simpa using h6
      subst hc
      simp [parseStrBody, escTable, ih]
    · have hc : c = '\t' := by simpa using h7
      subst hc
      simp [parseStrBody, escTable, ih]
    · have hdiv : c.toNat / 16 < 16 := by omega
      have hmod : c.toNat % 16 < 16 := by omega
      simp [parseStrBody, (show hexVal '0' = some 0 from rfl),
        hexVal_hexDigitCh hdiv, hexVal_hexDigitCh hmod, ih]
      rw [show c.toNat / 16 * 16 + c.toNat % 16 = c.toNat from by omega]
      simp
    · simp only [List.cons_append, List.nil_append]
      rw [parseStrBody.eq_def]
      dsimp only
      rw [if_neg (by simpa using h1), if_neg (by simpa using h2), if_neg h8]
      simp [ih]

lemma digit_numChar {c : Char} (h : isDigitCh c = true) : isNumChar c = true := by
  simp [isNumChar, h]

lemma all_digit_numChar {l : Str} (h : l.all isDigitCh = true) :
    l.all isNumChar = true := by
  rw [List.all_eq_true] at *
  exact fun c hc => digit_numChar (h c hc)

lemma numExpOk_all {u : Str} (h : numExpOk u = true) : u.all isNumChar = true := by
  unfold numExpOk at h
  split at h
  · rfl
  · next e t =>
    by_cases hc : (e == 'e' || e == 'E') = true
    · rw [if_pos hc] at h
      have he : isNumChar e = true := by
        rcases Bool.or_eq_true _ _ |>.mp hc with h' | h' <;>
          simp_all [isNumChar, isDigitCh]
      split at h
      all_goals
        simp only [Bool.and_eq_true] at h
        simp [List.all_cons, he, all_digit_numChar h.2,
          (show isNumChar '+' = true from rfl), (show isNumChar '-' = true from rfl)]
    · rw [if_neg hc] at h
      exact absurd h (by simp)

lemma numFracOk_all {u : Str} (h : numFracOk u = true) : u.all isNumChar = true := by
  unfold numFracOk at h
  split at h
  · next t =>
    simp only [Bool.and_eq_true] at h
    have h1 : (t.takeWhile isDigitCh).all isNumChar = true :=
      all_digit_numChar (by
        rw [List.all_eq_true]
        intro c hc
        exact List.mem_takeWhile_imp hc)
    have h2 := numExpOk_all h.2
    have ht : t = t.takeWhile isDigitCh ++ t.dropWhile isDigitCh :=
      (List.takeWhile_append_dropWhile ..).symm
    rw [List.all_eq_true]
    intro c hc
    rcases List.mem_cons.mp hc with rfl | hc
    · decide
    · rw [ht, List.mem_append] at hc
      rcases hc with hc | hc
      · exact List.all_eq_true.mp h1 c hc
      · exact List.all_eq_true.mp h2 c hc
  · exact numExpOk_all h

lemma numWF_all {s : Str} (h : numWF s = true) : s.all isNumChar = true := by
  unfold numWF at h
  have core : ∀ s1 : Str,
      (match s1 with
       | [] => false
       | '0' :: t => numFracOk t
       | c :: t => isDigitCh c && numFracOk (t.dropWhile isDigitCh)) = true →
      s1.all isNumChar = true := by
    intro s1 h1
    split at h1
    · exact absurd h1 (by simp)
    · next t => simp [numFracOk_all h1, isNumChar, isDigitCh]
    · next c t hne =>
      simp only [Bool.and_eq_true] at h1
      have ht : t = t.takeWhile isDigitCh ++ t.dropWhile isDigitCh :=
        (List.takeWhile_append_dropWhile ..).symm
      rw [List.all_eq_true]
      intro d hd
      rcases List.mem_cons.mp hd with rfl | hd
      · exact digit_numChar h1.1
      · rw [ht, List.mem_append] at hd
        rcases hd with hd | hd
        · exact digit_numChar (List.mem_takeWhile_imp hd)
        · exact List.all_eq_true.mp (numFracOk_all h1.2) d hd
  split at h
  · next t =>
    have := core t h
    rw [List.all_eq_true] at *
    intro c hc
    rcases List.mem_cons.mp hc with rfl | hc
    · decide
    · exact this c hc
  · next hns => exact core _ h

lemma char_beq_false_of_toNat {c d : Char} (h : c.toNat ≠ d.toNat) : (c == d) = false := by
  simp only [beq_eq_false_iff_ne, ne_eq]
  intro he
  exact h (by rw [he])

lemma isNumChar_toNat {c : Char} (h : isNumChar c = true) :
    (48 ≤ c.toNat ∧ c.toNat ≤ 57) ∨ c.toNat = 45 ∨ c.toNat = 43 ∨ c.toNat = 46 ∨
      c.toNat = 101 ∨ c.toNat = 69 := by
  simp only [isNumChar, isDigitCh, Bool.or_eq_true, Bool.and_eq_true,
    decide_eq_true_eq, beq_iff_eq] at h
  omega

lemma numChar_not_jsonWs {c : Char} (h : isNumChar c = true) : isJsonWs c = false := by
  have := isNumChar_toNat h
  simp only [isJsonWs, Bool.or_eq_false_iff, beq_eq_false_iff_ne, ne_eq]
  omega

lemma numChar_not_jsWs {c : Char} (h : isNumChar c = true) : isJsWs c = false := by
  have := isNumChar_toNat h
  simp only [isJsWs, Bool.or_eq_false_iff, Bool.and_eq_false_iff,
    beq_eq_false_iff_ne, ne_eq, decide_eq_false_iff_not, not_and, not_le]
  omega

lemma numChar_not_lineTerm {c : Char} (h : isNumChar c = true) : isLineTerm c = false := by
  have := isNumChar_toNat h
  simp only [isLineTerm, Bool.or_eq_false_iff, beq_eq_false_iff_ne, ne_eq]
  omega

lemma numWF_ne_nil {s : Str} (h : numWF s = true) : s ≠ [] := by
  intro he
  subst he
  exact absurd h (by decide)

/-- First character of a printed value: never whitespace and never a
closing bracket or brace. -/
lemma stringify_head {v : Json} (hwf : Json.wf v = true) :
    ∃ c t, stringify v = c :: t ∧ isJsonWs c = false ∧ c ≠ ']' ∧ c ≠ '\x7d' := by
  cases v with
  | num lex =>
    have hn : numWF lex = true := by simpa [Json.wf] using hwf
    obtain ⟨c, t, rfl⟩ : ∃ c t, lex = c :: t := by
      cases lex with
      | nil => exact absurd hn (by decide)
      | cons c t => exact ⟨c, t, rfl⟩
    have hc : isNumChar c = true := by
      have := numWF_all hn
      rw [List.all_eq_true] at this
      exact this c (by simp)
    have := isNumChar_toNat hc
    refine ⟨c, t, rfl, numChar_not_jsonWs hc, ?_, ?_⟩ <;>
      (intro he; subst he; revert this; decide)
  | bool b =>
    cases b
    · exact ⟨'f', _, rfl, by decide⟩
    · exact ⟨'t', _, rfl, by decide⟩
  | nul => exact ⟨'n', _, rfl, by decide⟩
  | str s => exact ⟨'"', _, rfl, by decide⟩
  | arr xs => exact ⟨'[', _, rfl, by decide⟩
  | obj ms => exact ⟨'\x7b', _, rfl, by decide⟩

mutual
theorem fsize_le_len : ∀ v : Json, Json.fsize v ≤ 2 * (stringify v).length + 1
  | .nul => by decide
  | .bool true => by decide
  | .bool false => by decide
  | .num lex => by
    simp only [Json.fsize]
    omega
  | .str s => by
    simp only [Json.fsize]
    omega
  | .arr xs => by
    have h := fsizeArr_le_len xs
    simp only [Json.fsize, stringify, List.length_cons, List.length_append,
      List.length_singleton]
    omega
  | .obj ms => by
    have h := fsizeObj_le_len ms
    simp only [Json.fsize, stringify, List.length_cons, List.length_append,
      List.length_singleton]
    omega

theorem fsizeArr_le_len : ∀ xs : JArr, JArr.fsize xs ≤ 2 * (stringifyArr xs).length + 4
  | .nil => by decide
  | .cons v .nil => by
    have h := fsize_le_len v
    simp only [JArr.fsize, stringifyArr]
    omega
  | .cons v (.cons w tl) => by
    have h1 := fsize_le_len v
    have h2 := fsizeArr_le_len (JArr.cons w tl)
    simp only [JArr.fsize] at h2
    simp only [JArr.fsize, stringifyArr, List.length_append, List.length_cons]
    omega

theorem fsizeObj_le_len : ∀ ms : JObj, JObj.fsize ms ≤ 2 * (stringifyObj ms).length + 4
  | .nil => by decide
  | .cons k v .nil => by
    have h := fsize_le_len v
    simp only [JObj.fsize, stringifyObj, List.length_cons, List.length_append]
    omega
  | .cons k v (.cons k2 w tl) => by
    have h1 := fsize_le_len v
    have h2 := fsizeObj_le_len (JObj.cons k2 w tl)
    simp only [JObj.fsize] at h2
    simp only [JObj.fsize, stringifyObj, List.length_append, List.length_cons]
    omega
end

lemma parseVal_null (f : Nat) (rest : Str) :
    parseVal (f + 1) ('n' :: 'u' :: 'l' :: 'l' :: rest) = some (Json.nul, rest) := rfl

lemma parseVal_true (f : Nat) (rest : Str) :
    parseVal (f + 1) ('t' :: 'r' :: 'u' :: 'e' :: rest) = some (Json.bool true, rest) := rfl

lemma parseVal_false (f : Nat) (rest : Str) :
    parseVal (f + 1) ('f' :: 'a' :: 'l' :: 's' :: 'e' :: rest) =
      some (Json.bool false, rest) := rfl

lemma parseVal_quote (f : Nat) (X : Str) :
    parseVal (f + 1) ('"' :: X) =
      (match parseStrBody X with
        | some (s, r) => some (Json.str s, r)
        | none => none) := rfl

lemma parseVal_lbrack (f : Nat) (X : Str) :
    parseVal (f + 1) ('[' :: X) =
      (match X.dropWhile isJsonWs with
        | ']' :: r => some (Json.arr .nil, r)
        | _ =>
          match parseElems f X with
          | some (xs, r) => some (Json.arr xs, r)
          | none => none) := rfl

lemma parseVal_lbrace (f : Nat) (X : Str) :
    parseVal (f + 1) ('\x7b' :: X) =
      (match X.dropWhile isJsonWs with
        | '\x7d' :: r => some (Json.obj .nil, r)
        | _ =>
          match parseMems f X with
          | some (ms, r) => some (Json.obj ms, r)
          | none => none) := rfl

lemma parseElems_succ (f : Nat) (l : Str) :
    parseElems (f + 1) l =
      (match parseVal f l with
        | some (v, r) =>
          match r.dropWhile isJsonWs with
          | ',' :: r2 =>
            match parseElems f r2 with
            | some (tl, r3) => some (.cons v tl, r3)
            | none => none
          | ']' :: r2 => some (.cons v .nil, r2)
          | _ => none
        | none => none) := rfl

lemma parseMems_succ (f : Nat) (l : Str) :
    parseMems (f + 1) l =
      (match l.dropWhile isJsonWs with
        | '"' :: r =>
          match parseStrBody r with
          | some (k, r1) =>
            match r1.dropWhile isJsonWs with
            | ':' :: r2 =>
              match parseVal f r2 with
              | some (v, r3) =>
                match r3.dropWhile isJsonWs with
                | ',' :: r4 =>
                  match parseMems f r4 with
                  | some (tl, r5) => some (.cons k v tl, r5)
                  | none => none
                | '\x7d' :: r4 => some (.cons k v JObj.nil, r4)
                | _ => none
              | none => none
            | _ => none
          | none => none
        | _ => none) := rfl

lemma parseVal_succ (f : Nat) (l : Str) :
    parseVal (f + 1) l =
      (match l.dropWhile isJsonWs with
        | [] => none
        | c :: rest =>
          if c == '\x7b' then
            match rest.dropWhile isJsonWs with
            | '\x7d' :: r => some (Json.obj .nil, r)
            | _ =>
              match parseMems f rest with
              | some (ms, r) => some (Json.obj ms, r)
              | none => none
          else if c == '[' then
            match rest.dropWhile isJsonWs with
            | ']' :: r => some (Json.arr .nil, r)
            | _ =>
              match parseElems f rest with
              | some (xs, r) => some (Json.arr xs, r)
              | none => none
          else if c == '"' then
            match parseStrBody rest with
            | some (s, r) => some (Json.str s, r)
            | none => none
          else if c == 't' then
            match rest with
            | 'r' :: 'u' :: 'e' :: r => some (Json.bool true, r)
            | _ => none
          else if c == 'f' then
            match rest with
            | 'a' :: 'l' :: 's' :: 'e' :: r => some (Json.bool false, r)
            | _ => none
          else if c == 'n' then
            match rest with
            | 'u' :: 'l' :: 'l' :: r => some (Json.nul, r)
            | _ => none
          else if isNumChar c then
            let lex := (c :: rest).takeWhile isNumChar
            if numWF lex then some (Json.num lex, (c :: rest).dropWhile isNumChar)
            else none
          else none) := rfl

/-- On a number-character head, `parseVal` falls through the six keyword
branches to the number lexer. -/
lemma parseVal_numHead (f : Nat) (c : Char) (X : Str) (hc : isNumChar c = true) :
    parseVal (f + 1) (c :: X) =
      (if numWF ((c :: X).takeWhile isNumChar) then
        some (Json.num ((c :: X).takeWhile isNumChar), (c :: X).dropWhile isNumChar)
      else none) := by
  have ht := isNumChar_toNat hc
  have h1 : (c == '\x7b') = false := char_beq_false_of_toNat (by
    have hd : ('\x7b').toNat = 123 := rfl
    omega)
  have h2 : (c == '[') = false := char_beq_false_of_toNat (by
    have hd : ('[').toNat = 91 := rfl
    omega)
  have h3 : (c == '"') = false := char_beq_false_of_toNat (by
    have hd : ('"').toNat = 34 := rfl
    omega)
  have h4 : (c == 't') = false := char_beq_false_of_toNat (by
    have hd : ('t').toNat = 116 := rfl
    omega)
  have h5 : (c == 'f') = false := char_beq_false_of_toNat (by
    have hd : ('f').toNat = 102 := rfl
    omega)
  have h6 : (c == 'n') = false := char_beq_false_of_toNat (by
    have hd : ('n').toNat = 110 := rfl
    omega)
  have hdrop : (c :: X).dropWhile isJsonWs = c :: X :=
    dropWhile_eq_self_of_head (by
      intro d hd
      simp only [List.head?_cons, Option.some.injEq] at hd
      exact hd ▸ numChar_not_jsonWs hc)
  rw [parseVal_succ, hdrop]
  simp only [h1, h2, h3, h4, h5, h6, hc, Bool.false_eq_true, if_false, if_true]

lemma fsize_pos (v : Json) : 1 ≤ Json.fsize v := by
  cases v <;> (simp only [Json.fsize]; omega)

lemma fsizeArr_pos (xs : JArr) : 1 ≤ JArr.fsize xs := by
  cases xs <;> (simp only [JArr.fsize]; omega)

lemma fsizeObj_pos (ms : JObj) : 1 ≤ JObj.fsize ms := by
  cases ms <;> (simp only [JObj.fsize]; omega)


/-- Continuation of `parseElems` after the first element is parsed. -/
def elemsCont (f : Nat) : Option (Json × Str) → Option (JArr × Str)
  | some (v, r) =>
    match r.dropWhile isJsonWs with
    | ',' :: r2 =>
      match parseElems f r2 with
      | some (tl, r3) => some (.cons v tl, r3)
      | none => none
    | ']' :: r2 => some (.cons v .nil, r2)
    | _ => none
  | none => none

/-- Continuation of `parseMems` after a member's value is parsed. -/
def valCont (f : Nat) (k : Str) : Option (Json × Str) → Option (JObj × Str)
  | some (v, r3) =>
    match r3.dropWhile isJsonWs with
    | ',' :: r4 =>
      match parseMems f r4 with
      | some (tl, r5) => some (.cons k v tl, r5)
      | none => none
    | '\x7d' :: r4 => some (.cons k v JObj.nil, r4)
    | _ => none
  | none => none

/-- Continuation of `parseMems` after the member key is parsed. -/
def memsCont (f : Nat) : Option (Str × Str) → Option (JObj × Str)
  | some (k, r1) =>
    match r1.dropWhile isJsonWs with
    | ':' :: r2 => valCont f k (parseVal f r2)
    | _ => none
  | none => none

lemma parseElems_succK (f : Nat) (l : Str) :
    parseElems (f + 1) l = elemsCont f (parseVal f l) := rfl

lemma elemsCont_close (f : Nat) (v : Json) (r : Str) :
    elemsCont f (some (v, ']' :: r)) = some (JArr.cons v JArr.nil, r) := rfl

lemma elemsCont_comma (f : Nat) (v : Json) (r2 : Str) :
    elemsCont f (some (v, ',' :: r2)) =
      (match parseElems f r2 with
        | some (tl, r3) => some (JArr.cons v tl, r3)
        | none => none) := rfl

lemma parseMems_quoteKey (f : Nat) (Y : Str) :
    parseMems (f + 1) ('"' :: Y) = memsCont f (parseStrBody Y) := rfl

lemma memsCont_colon (f : Nat) (k : Str) (X : Str) :
    memsCont f (some (k, ':' :: X)) = valCont f k (parseVal f X) := rfl

lemma valCont_close (f : Nat) (k : Str) (v : Json) (r : Str) :
    valCont f k (some (v, '\x7d' :: r)) = some (JObj.cons k v JObj.nil, r) := rfl

lemma valCont_comma (f : Nat) (k : Str) (v : Json) (r4 : Str) :
    valCont f k (some (v, ',' :: r4)) =
      (match parseMems f r4 with
        | some (tl, r5) => some (JObj.cons k v tl, r5)
        | none => none) := rfl

mutual
/-- A printed well-formed value parses back to itself, leaving the rest of
the input untouched, whenever the rest does not start with a number
character and the fuel covers the value's size. -/
theorem parseVal_print : ∀ (v : Json), Json.wf v = true →
    ∀ (fuel : Nat), Json.fsize v ≤ fuel →
    ∀ (rest : Str), (∀ c, rest.head? = some c → isNumChar c = false) →
    parseVal fuel (stringify v ++ rest) = some (v, rest)
  | .nul => by
    intro hwf fuel hfuel rest hrest
    obtain ⟨f, rfl⟩ : ∃ f, fuel = f + 1 := by
      have h1 : 1 ≤ fuel := le_trans (fsize_pos _) hfuel
      exact ⟨fuel - 1, by omega⟩
    exact parseVal_null f rest
  | .bool true => by
    intro hwf fuel hfuel rest hrest
    obtain ⟨f, rfl⟩ : ∃ f, fuel = f + 1 := by
      have h1 : 1 ≤ fuel := le_trans (fsize_pos _) hfuel
      exact ⟨fuel - 1, by omega⟩
    exact parseVal_true f rest
  | .bool false => by
    intro hwf fuel hfuel rest hrest
    obtain ⟨f, rfl⟩ : ∃ f, fuel = f + 1 := by
      have h1 : 1 ≤ fuel := le_trans (fsize_pos _) hfuel
      exact ⟨fuel - 1, by omega⟩
    exact parseVal_false f rest
  | .num lex => by
    intro hwf fuel hfuel rest hrest
    have hn : numWF lex = true := hwf
    obtain ⟨f, rfl⟩ : ∃ f, fuel = f + 1 := by
      have h1 : 1 ≤ fuel := le_trans (fsize_pos _) hfuel
      exact ⟨fuel - 1, by omega⟩
    obtain ⟨c, t, rfl⟩ : ∃ c t, lex = c :: t := by
      cases lex with
      | nil => exact absurd hn (by decide)
      | cons c t => exact ⟨c, t, rfl⟩
    have hall : ∀ d ∈ (c :: t), isNumChar d = true := by
      have h2 := numWF_all hn
      rw [List.all_eq_true] at h2
      intro d hd
      simpa using h2 d hd
    have hc : isNumChar c = true := hall c (by simp)
    have htk := takeWhile_append_of_all isNumChar (c :: t) rest
      hall hrest
    show parseVal (f + 1) ((c :: t) ++ rest) = some (Json.num (c :: t), rest)
    rw [List.cons_append, parseVal_numHead f c (t ++ rest) hc,
      ← List.cons_append, htk.1, htk.2, if_pos hn]
  | .str s => by
    intro hwf fuel hfuel rest hrest
    obtain ⟨f, rfl⟩ : ∃ f, fuel = f + 1 := by
      have h1 : 1 ≤ fuel := le_trans (fsize_pos _) hfuel
      exact ⟨fuel - 1, by omega⟩
    show parseVal (f + 1) (('"' :: (escapeStr s ++ ['"'])) ++ rest) =
      some (Json.str s, rest)
    rw [List.cons_append, List.append_assoc, List.singleton_append,
      parseVal_quote, parseStrBody_escape]
  | .arr xs => by
    intro hwf fuel hfuel rest hrest
    have hxs : JArr.wf xs = true := hwf
    simp only [Json.fsize] at hfuel
    obtain ⟨f, rfl⟩ : ∃ f, fuel = f + 1 := ⟨fuel - 1, by omega⟩
    show parseVal (f + 1) (('[' :: (stringifyArr xs ++ [']'])) ++ rest) =
      some (Json.arr xs, rest)
    rw [List.cons_append, List.append_assoc, List.singleton_append, parseVal_lbrack]
    cases xs with
    | nil => rfl
    | cons v tl =>
      have hw : Json.wf v = true ∧ JArr.wf tl = true := by
        simpa [JArr.wf, Bool.and_eq_true] using hxs
      have hPE := parseElems_print (JArr.cons v tl) hxs f (by omega) (by simp) rest
      obtain ⟨A, hA⟩ : ∃ A, stringifyArr (JArr.cons v tl) = stringify v ++ A := by
        cases tl with
        | nil => exact ⟨[], by simp [stringifyArr]⟩
        | cons w tl2 => exact ⟨',' :: stringifyArr (JArr.cons w tl2), rfl⟩
      obtain ⟨c, tcs, hsv, hnws, hnbr, hnbd⟩ := stringify_head hw.1
      rw [hA, List.append_assoc, hsv, List.cons_append]
      rw [hA, List.append_assoc, hsv, List.cons_append] at hPE
      rw [dropWhile_eq_self_of_head (by
        intro d hd
        simp only [List.head?_cons, Option.some.injEq] at hd
        subst hd
        exact hnws)]
      split
      · next r heq =>
        injection heq with h1 h2
        exact absurd h1 hnbr
      · rw [hPE]
  | .obj ms => by
    intro hwf fuel hfuel rest hrest
    have hms : JObj.wf ms = true := hwf
    simp only [Json.fsize] at hfuel
    obtain ⟨f, rfl⟩ : ∃ f, fuel = f + 1 := ⟨fuel - 1, by omega⟩
    show parseVal (f + 1) (('\x7b' :: (stringifyObj ms ++ ['\x7d'])) ++ rest) =
      some (Json.obj ms, rest)
    rw [List.cons_append, List.append_assoc, List.singleton_append, parseVal_lbrace]
    cases ms with
    | nil => rfl
    | cons k v tl =>
      have hPM := parseMems_print (JObj.cons k v tl) hms f (by omega) (by simp) rest
      obtain ⟨A, hA⟩ : ∃ A, stringifyObj (JObj.cons k v tl) =
          '"' :: (escapeStr k ++ '"' :: ':' :: stringify v ++ A) := by
        cases tl with
        | nil => exact ⟨[], by simp [stringifyObj]⟩
        | cons k2 w tl2 =>
          exact ⟨',' :: stringifyObj (JObj.cons k2 w tl2), by
            simp [stringifyObj, List.append_assoc]⟩
      rw [hA, List.cons_append]
      rw [hA, List.cons_append] at hPM
      rw [dropWhile_eq_self_of_head (by
        intro d hd
        simp only [List.head?_cons, Option.some.injEq] at hd
        subst hd
        decide)]
      split
      · next r heq =>
        injection heq with h1 h2
        exact absurd h1 (by decide)
      · rw [hPM]

/-- Printed nonempty array elements followed by a closing bracket parse
back to the element list. -/
theorem parseElems_print : ∀ (xs : JArr), JArr.wf xs = true →
    ∀ (fuel : Nat), JArr.fsize xs ≤ fuel → xs ≠ JArr.nil →
    ∀ (rest : Str),
    parseElems fuel (stringifyArr xs ++ ']' :: rest) = some (xs, rest)
  | .nil => by
    intro _ _ _ hne
    exact absurd rfl hne
  | .cons v tl => by
    intro hwf fuel hfuel _ rest
    have hw : Json.wf v = true ∧ JArr.wf tl = true := by
      simpa [JArr.wf, Bool.and_eq_true] using hwf
    simp only [JArr.fsize] at hfuel
    have hvp := fsize_pos v
    have htp := fsizeArr_pos tl
    obtain ⟨f, rfl⟩ : ∃ f, fuel = f + 1 := ⟨fuel - 1, by omega⟩
    rw [parseElems_succK]
    cases tl with
    | nil =>
      have hPV := parseVal_print v hw.1 f (by omega) (']' :: rest) (by
        intro d hd
        simp only [List.head?_cons, Option.some.injEq] at hd
        subst hd
        decide)
      rw [show stringifyArr (JArr.cons v JArr.nil) = stringify v from rfl, hPV,
        elemsCont_close]
    | cons w tl2 =>
      have hL : stringifyArr (JArr.cons v (JArr.cons w tl2)) ++ ']' :: rest
          = stringify v ++ ',' :: (stringifyArr (JArr.cons w tl2) ++ ']' :: rest) := by
        simp [stringifyArr, List.append_assoc]
      have hPV := parseVal_print v hw.1 f (by omega)
        (',' :: (stringifyArr (JArr.cons w tl2) ++ ']' :: rest)) (by
        intro d hd
        simp only [List.head?_cons, Option.some.injEq] at hd
        subst hd
        decide)
      have hPE := parseElems_print (JArr.cons w tl2) hw.2 f (by omega) (by simp) rest
      rw [hL, hPV, elemsCont_comma, hPE]

/-- Printed nonempty object members followed by a closing brace parse back
to the member list. -/
theorem parseMems_print : ∀ (ms : JObj), JObj.wf ms = true →
    ∀ (fuel : Nat), JObj.fsize ms ≤ fuel → ms ≠ JObj.nil →
    ∀ (rest : Str),
    parseMems fuel (stringifyObj ms ++ '\x7d' :: rest) = some (ms, rest)
  | .nil => by
    intro _ _ _ hne
    exact absurd rfl hne
  | .cons k v tl => by
    intro hwf fuel hfuel _ rest
    have hw : strWF k = true ∧ Json.wf v = true ∧ JObj.wf tl = true := by
      simpa [JObj.wf, Bool.and_eq_true, and_assoc] using hwf
    simp only [JObj.fsize] at hfuel
    have hvp := fsize_pos v
    have htp := fsizeObj_pos tl
    obtain ⟨f, rfl⟩ : ∃ f, fuel = f + 1 := ⟨fuel - 1, by omega⟩
    cases tl with
    | nil =>
      have hL : stringifyObj (JObj.cons k v JObj.nil) ++ '\x7d' :: rest
          = '"' :: (escapeStr k ++ '"' :: ':' :: (stringify v ++ '\x7d' :: rest)) := by
        simp [stringifyObj, List.append_assoc]
      have hPV := parseVal_print v hw.2.1 f (by omega) ('\x7d' :: rest) (by
        intro d hd
        simp only [List.head?_cons, Option.some.injEq] at hd
        subst hd
        decide)
      rw [hL, parseMems_quoteKey, parseStrBody_escape, memsCont_colon, hPV,
        valCont_close]
    | cons k2 w tl2 =>
      have hL : stringifyObj (JObj.cons k v (JObj.cons k2 w tl2)) ++ '\x7d' :: rest
          = '"' :: (escapeStr k ++ '"' :: ':' ::
              (stringify v ++
                ',' :: (stringifyObj (JObj.cons k2 w tl2) ++ '\x7d' :: rest))) := by
        simp [stringifyObj, List.append_assoc]
      have hPV := parseVal_print v hw.2.1 f (by omega)
        (',' :: (stringifyObj (JObj.cons k2 w tl2) ++ '\x7d' :: rest)) (by
        intro d hd
        simp only [List.head?_cons, Option.some.injEq] at hd
        subst hd
        decide)
      have hPM := parseMems_print (JObj.cons k2 w tl2) hw.2.2 f (by omega) (by simp) rest
      rw [hL, parseMems_quoteKey, parseStrBody_escape, memsCont_colon, hPV,
        valCont_comma, hPM]
end

/-- `JSON.parse` is a left inverse of `JSON.stringify` on well-formed
values. -/
theorem jsonParse_stringify {v : Json} (h : Json.wf v = true) :
    jsonParse (stringify v) = some v := by
  unfold jsonParse
  have hf := fsize_le_len v
  have hp := parseVal_print v h (2 * (stringify v).length + 2) (by omega) []
    (by intro c hc; simp at hc)
  rw [List.append_nil] at hp
  rw [hp]
  simp

lemma hexDigitCh_noLT {n : Nat} (h : n < 16) : isLineTerm (hexDigitCh n) = false := by
  unfold hexDigitCh
  split
  · rw [isLineTerm, toNat_ofNat_small (by omega)]
    simp only [Bool.or_eq_false_iff, beq_eq_false_iff_ne, ne_eq]
    omega
  · rw [isLineTerm, toNat_ofNat_small (by omega)]
    simp only [Bool.or_eq_false_iff, beq_eq_false_iff_ne, ne_eq]
    omega

/-- No escape expansion of a non-U+2028/29 character contains a
line-terminator character. -/
lemma escChar_noLT {c : Char} (h2028 : c.toNat ≠ 0x2028) (h2029 : c.toNat ≠ 0x2029) :
    ∀ d ∈ escChar c, isLineTerm d = false := by
  intro d hd
  unfold escChar at hd
  split_ifs at hd with h1 h2 h3 h4 h5 h6 h7 h8
  · simp only [List.mem_cons, List.not_mem_nil, or_false] at hd
    rcases hd with rfl | rfl <;> decide
  · simp only [List.mem_cons, List.not_mem_nil, or_false] at hd
    rcases hd with rfl | rfl <;> decide
  · simp only [List.mem_cons, List.not_mem_nil, or_false] at hd
    rcases hd with rfl | rfl <;> decide
  · simp only [List.mem_cons, List.not_mem_nil, or_false] at hd
    rcases hd with rfl | rfl <;> decide
  · simp only [List.mem_cons, List.not_mem_nil, or_false] at hd
    rcases hd with rfl | rfl <;> decide
  · simp only [List.mem_cons, List.not_mem_nil, or_false] at hd
    rcases hd with rfl | rfl <;> decide
  · simp only [List.mem_cons, List.not_mem_nil, or_false] at hd
    rcases hd with rfl | rfl <;> decide
  · simp only [List.mem_cons, List.not_mem_nil, or_false] at hd
    rcases hd with rfl | rfl | rfl | rfl | rfl | rfl
    · decide
    · decide
    · decide
    · decide
    · exact hexDigitCh_noLT (by omega)
    · exact hexDigitCh_noLT (by omega)
  · simp only [List.mem_cons, List.not_mem_nil, or_false] at hd
    subst hd
    simp only [isLineTerm, Bool.or_eq_false_iff, beq_eq_false_iff_ne, ne_eq]
    omega

lemma escapeStr_noLT {s : Str} (hwf : strWF s = true) :
    ∀ d ∈ escapeStr s, isLineTerm d = false := by
  intro d hd
  simp only [escapeStr, List.mem_flatten, List.mem_map] at hd
  obtain ⟨l, ⟨c, hc, rfl⟩, hdl⟩ := hd
  rw [strWF, List.all_eq_true] at hwf
  have hc2 := hwf c hc
  simp only [Bool.not_eq_true', Bool.or_eq_false_iff, beq_eq_false_iff_ne, ne_eq] at hc2
  exact escChar_noLT hc2.1 hc2.2 d hdl

lemma all_noLT_of_all {l : Str} (h : l.all (fun c => !isLineTerm c) = true) :
    ∀ d ∈ l, isLineTerm d = false := by
  rw [List.all_eq_true] at h
  intro d hd
  simpa using h d hd

mutual
/-- Printed well-formed values contain no JavaScript line terminator, so
they survive a `(.+)$` capture group. -/
theorem stringify_noLT : ∀ (v : Json), Json.wf v = true →
    ∀ d ∈ stringify v, isLineTerm d = false
  | .nul => fun _ => all_noLT_of_all (by decide)
  | .bool true => fun _ => all_noLT_of_all (by decide)
  | .bool false => fun _ => all_noLT_of_all (by decide)
  | .num lex => by
    intro hwf d hd
    have hall := numWF_all (show numWF lex = true from hwf)
    rw [List.all_eq_true] at hall
    exact numChar_not_lineTerm (by simpa using hall d hd)
  | .str s => by
    intro hwf d hd
    simp only [stringify, List.mem_cons, List.mem_append, List.mem_singleton] at hd
    rcases hd with rfl | hd | rfl | hnil
    · decide
    · exact escapeStr_noLT hwf d hd
    · decide
    · simp at hnil
  | .arr xs => by
    intro hwf d hd
    simp only [stringify, List.mem_cons, List.mem_append, List.mem_singleton] at hd
    rcases hd with rfl | hd | rfl | hnil
    · decide
    · exact stringifyArr_noLT xs hwf d hd
    · decide
    · simp at hnil
  | .obj ms => by
    intro hwf d hd
    simp only [stringify, List.mem_cons, List.mem_append, List.mem_singleton] at hd
    rcases hd with rfl | hd | rfl | hnil
    · decide
    · exact stringifyObj_noLT ms hwf d hd
    · decide
    · simp at hnil

theorem stringifyArr_noLT : ∀ (xs : JArr), JArr.wf xs = true →
    ∀ d ∈ stringifyArr xs, isLineTerm d = false
  | .nil => by
    intro _ d hd
    simp [stringifyArr] at hd
  | .cons v .nil => by
    intro hwf d hd
    have hw : Json.wf v = true := by
      simpa [JArr.wf, Bool.and_eq_true] using hwf
    exact stringify_noLT v hw d (by simpa [stringifyArr] using hd)
  | .cons v (.cons w tl) => by
    intro hwf d hd
    have hw : Json.wf v = true ∧ JArr.wf (JArr.cons w tl) = true := by
      simpa [JArr.wf, Bool.and_eq_true] using hwf
    simp only [stringifyArr, List.mem_append, List.mem_cons] at hd
    rcases hd with hd | rfl | hd
    · exact stringify_noLT v hw.1 d hd
    · decide
    · exact stringifyArr_noLT (JArr.cons w tl) hw.2 d hd

theorem stringifyObj_noLT : ∀ (ms : JObj), JObj.wf ms = true →
    ∀ d ∈ stringifyObj ms, isLineTerm d = false
  | .nil => by
    intro _ d hd
    simp [stringifyObj] at hd
  | .cons k v .nil => by
    intro hwf d hd
    have hw : strWF k = true ∧ Json.wf v = true := by
      simpa [JObj.wf, Bool.and_eq_true, and_assoc] using hwf
    simp only [stringifyObj, List.mem_cons, List.mem_append] at hd
    rcases hd with rfl | hd | rfl | rfl | hd
    · decide
    · exact escapeStr_noLT hw.1 d hd
    · decide
    · decide
    · exact stringify_noLT v hw.2 d hd
  | .cons k v (.cons k2 w tl) => by
    intro hwf d hd
    have hw : strWF k = true ∧ Json.wf v = true ∧ JObj.wf (JObj.cons k2 w tl) = true := by
      simpa [JObj.wf, Bool.and_eq_true, and_assoc] using hwf
    simp only [stringifyObj, List.mem_cons, List.mem_append] at hd
    rcases hd with (rfl | hd | rfl | rfl | hd) | rfl | hd
    · decide
    · exact escapeStr_noLT hw.1 d hd
    · decide
    · decide
    · exact stringify_noLT v hw.2.1 d hd
    · decide
    · exact stringifyObj_noLT (JObj.cons k2 w tl) hw.2.2 d hd
end

/-- First character of a printed value is never JavaScript whitespace. -/
lemma stringify_headWs {v : Json} (hwf : Json.wf v = true) :
    ∃ c t, stringify v = c :: t ∧ isJsWs c = false := by
  cases v with
  | nul => exact ⟨'n', _, rfl, by decide⟩
  | bool b => cases b with
    | true => exact ⟨'t', _, rfl, by decide⟩
    | false => exact ⟨'f', _, rfl, by decide⟩
  | num lex =>
    have hn : numWF lex = true := by simpa [Json.wf] using hwf
    obtain ⟨c, t, rfl⟩ : ∃ c t, lex = c :: t := by
      cases lex with
      | nil => exact absurd hn (by decide)
      | cons c t => exact ⟨c, t, rfl⟩
    have hc : isNumChar c = true := by
      have h2 := numWF_all hn
      rw [List.all_eq_true] at h2
      simpa using h2 c (by simp)
    exact ⟨c, t, rfl, numChar_not_jsWs hc⟩
  | str s => exact ⟨'"', _, rfl, by decide⟩
  | arr xs => exact ⟨'[', _, rfl, by decide⟩
  | obj ms => exact ⟨'\x7b', _, rfl, by decide⟩

/-- Last character of a printed value is never JavaScript whitespace. -/
lemma stringify_last {v : Json} (hwf : Json.wf v = true) :
    ∀ c, (stringify v).getLast? = some c → isJsWs c = false := by
  cases v with
  | nul =>
    intro c hc
    rw [show (stringify Json.nul).getLast? = some 'l' from rfl] at hc
    cases hc
    decide
  | bool b =>
    cases b with
    | true =>
      intro c hc
      rw [show (stringify (Json.bool true)).getLast? = some 'e' from rfl] at hc
      cases hc
      decide
    | false =>
      intro c hc
      rw [show (stringify (Json.bool false)).getLast? = some 'e' from rfl] at hc
      cases hc
      decide
  | num lex =>
    intro c hc
    have hn : numWF lex = true := by simpa [Json.wf] using hwf
    have hall := numWF_all hn
    rw [List.all_eq_true] at hall
    have hmem : c ∈ lex := List.mem_of_mem_getLast? hc
    exact numChar_not_jsWs (by simpa using hall c hmem)
  | str s =>
    intro c hc
    rw [show stringify (Json.str s) = ('"' :: escapeStr s) ++ ['"'] by
        simp [stringify], List.getLast?_concat] at hc
    cases hc
    decide
  | arr xs =>
    intro c hc
    rw [show stringify (Json.arr xs) = ('[' :: stringifyArr xs) ++ [']'] by
        simp [stringify], List.getLast?_concat] at hc
    cases hc
    decide
  | obj ms =>
    intro c hc
    rw [show stringify (Json.obj ms) = ('\x7b' :: stringifyObj ms) ++ ['\x7d'] by
        simp [stringify], List.getLast?_concat] at hc
    cases hc
    decide

lemma headNotWs_of_head {s : Str}
    (h : ∀ c, s.head? = some c → isJsWs c = false) : headNotWs s = true := by
  cases s with
  | nil => rfl
  | cons a t => simp [headNotWs, h a rfl]

/-- A printed well-formed value is an acceptable `(.+)$` blob: non-empty,
no whitespace at either end, no line terminators. -/
lemma stringify_goodBlob {v : Json} (hwf : Json.wf v = true) :
    goodBlob (stringify v) = true := by
  obtain ⟨c, t, hsv, hws⟩ := stringify_headWs hwf
  simp only [goodBlob, Bool.and_eq_true]
  refine ⟨⟨⟨?_, ?_⟩, ?_⟩, ?_⟩
  · rw [hsv]
    simp
  · apply headNotWs_of_head
    intro d hd
    rw [hsv] at hd
    simp only [List.head?_cons, Option.some.injEq] at hd
    subst hd
    exact hws
  · apply headNotWs_of_head
    intro d hd
    rw [List.head?_reverse] at hd
    exact stringify_last hwf d hd
  · rw [List.all_eq_true]
    intro d hd
    simp [stringify_noLT v hwf d hd]

/-- C7 (amended): round-trip through the canonical formatter and the
parser.  For a command of type call_function, call_tool or stream_function
whose name matches the `[a-zA-Z0-9._]+` class and whose parameters are a
truthy well-formed JSON value, re-parsing the formatted string restores
the type, the name and the exact parameters, and the result is valid; a
connect command whose url and apiKey are nonempty whitespace-free tokens
likewise round-trips.  (stream_tool commands and falsy parameters do not
round-trip; see the counterexample.) -/
theorem c7_round_trip :
    (∀ (cmd : ParsedCommand) (name : Str) (v : Json),
      (cmd.type = CommandType.call_function ∨ cmd.type = CommandType.call_tool ∨
        cmd.type = CommandType.stream_function) →
      cmd.functionName = some name → cmd.parameters = some v →
      goodName name = true → Json.wf v = true → jsTruthyJson v = true →
      parseCommand (formatCommandString cmd) =
        ⟨cmd.type, some name, some v, none, true, none⟩) ∧
    (∀ (cmd : ParsedCommand) (u k : Str),
      cmd.type = CommandType.connect →
      cmd.parameters = some (Json.obj (.cons "url".data (Json.str u)
        (.cons "apiKey".data (Json.str k) .nil))) →
      goodToken u = true → goodToken k = true →
      parseCommand (formatCommandString cmd) = ⟨CommandType.connect, none,
        some (Json.obj (.cons "url".data (Json.str u)
          (.cons "apiKey".data (Json.str k) .nil))), none, true, none⟩) := by
  constructor
  · intro cmd name v htype hname hp hgn hwf htruthy
    have hfp : formatParams (some v) = stringify v := by
      simp [formatParams, jsTruthy, htruthy]
    rcases htype with htype | htype | htype
    · have hfmt : formatCommandString cmd =
          "call ".data ++ (name ++ ' ' :: stringify v) := by
        unfold formatCommandString
        rw [htype, hname, hp]
        show "call ".data ++ jsOrEmpty (some name) ++ ' ' :: formatParams (some v) =
          "call ".data ++ (name ++ ' ' :: stringify v)
        rw [hfp]
        simp [jsOrEmpty, List.append_assoc]
      rw [hfmt, htype, parse_call_shaped name (stringify v) hgn (stringify_goodBlob hwf),
        jsonParse_stringify hwf]
    · have hfmt : formatCommandString cmd =
          "tool ".data ++ (name ++ ' ' :: stringify v) := by
        unfold formatCommandString
        rw [htype, hname, hp]
        show "tool ".data ++ jsOrEmpty (some name) ++ ' ' :: formatParams (some v) =
          "tool ".data ++ (name ++ ' ' :: stringify v)
        rw [hfp]
        simp [jsOrEmpty, List.append_assoc]
      rw [hfmt, htype, parse_tool_shaped name (stringify v) hgn (stringify_goodBlob hwf),
        jsonParse_stringify hwf]
    · have hfmt : formatCommandString cmd =
          "stream ".data ++ (name ++ ' ' :: stringify v) := by
        unfold formatCommandString
        rw [htype, hname, hp]
        show "stream ".data ++ jsOrEmpty (some name) ++ ' ' :: formatParams (some v) =
          "stream ".data ++ (name ++ ' ' :: stringify v)
        rw [hfp]
        simp [jsOrEmpty, List.append_assoc]
      rw [hfmt, htype, parse_stream_shaped name (stringify v) hgn (stringify_goodBlob hwf),
        jsonParse_stringify hwf]
  · intro cmd u k htype hp hu hk
    have hfmt : formatCommandString cmd = "connect ".data ++ (u ++ ' ' :: k) := by
      unfold formatCommandString
      rw [htype, hp]
      rfl
    rw [hfmt, parse_connect_shaped u k hu hk]

/-- C7: the claim fails as stated for the other cases it quantifies over.
A valid stream_tool command is formatted as the literal `unknown command`,
which re-parses to an invalid help command, not a stream_tool; and a valid
call_function command whose parameters are the falsy value `false` is
formatted with a `\x7b\x7d` parameter blob, so re-parsing yields the empty
object — a value distinguishable from the original parameters by
truthiness alone. -/
theorem c7_counterexample :
    ((parseCommand (formatCommandString ⟨CommandType.stream_tool, some "calc.add".data,
        some (Json.obj JObj.nil), none, true, none⟩)).type ==
      CommandType.stream_tool) = false
    ∧ formatCommandString ⟨CommandType.call_function, some "f".data,
        some (Json.bool false), none, true, none⟩ = "call f \x7b\x7d".data
    ∧ (parseCommand "call f \x7b\x7d".data).parameters = some (Json.obj JObj.nil)
    ∧ jsTruthyJson (Json.bool false) = false
    ∧ jsTruthyJson (Json.obj JObj.nil) = true :=
  ⟨rfl, rfl, rfl, rfl, rfl⟩

/-- C7 witness: the round-trip theorem applied to the concrete command
`call calc.add \x7b"a":5\x7d`. -/
theorem c7_round_trip_witness :
    parseCommand (formatCommandString ⟨CommandType.call_function, some "calc.add".data,
      some (Json.obj (.cons "a".data (Json.num "5".data) .nil)), none, true, none⟩) =
      ⟨CommandType.call_function, some "calc.add".data,
        some (Json.obj (.cons "a".data (Json.num "5".data) .nil)), none, true, none⟩ :=
  c7_round_trip.1 ⟨CommandType.call_function, some "calc.add".data,
      some (Json.obj (.cons "a".data (Json.num "5".data) .nil)), none, true, none⟩
    "calc.add".data (Json.obj (.cons "a".data (Json.num "5".data) .nil))
    (Or.inl rfl) rfl rfl (by decide) (by decide) (by decide)

/-- C2: the original claim fails for a transport rejection whose `Error`
message is empty.  The caught message is then falsy, the postlude's
`if (error)` conversion is skipped, and the executor returns normally
with a `null` result and a history item whose response is `null` — not
an `\x7berror\x7d` object holding the message (the two outcomes differ:
`null` has no `error` property, the converted object does). -/
theorem c2_counterexample :
    executeCommand (fun _ _ => false) ⟨"i".data, "s".data, "n".data, 3⟩
      (failTransport []) none
      ⟨.call_function, some "f".data, some (Json.obj .nil), none, true, none⟩ =
      .ok ⟨Json.nul,
        ⟨"i".data, "n".data, "call f \x7b\x7d".data,
         ⟨.call_function, some "f".data, some (Json.obj .nil), none, true, none⟩,
         Json.nul, some 3, false⟩,
        none, [TCall.callFunction "f".data (Json.obj JObj.nil)]⟩
    ∧ Json.nul.field "error".data = none
    ∧ (errObj []).field "error".data = some (Json.str []) :=
  ⟨rfl, rfl, rfl⟩
